import Mathlib

/-!
# OSDK operator-sdk-runner: schema synthesis and tree rewriting

A shallow embedding of `src/operator-sdk-runner/main.go`, `types.go` and
`webhook.go`.

Modelling conventions.

* A Go `string` is a Lean `String`, read as its sequence of runes (what a Go
  `for range` loop sees).  Every string of a request is valid UTF-8, because
  `encoding/json` produces only such strings.
* `fmt.Sprintf` with `%s` verbs on strings is concatenation.
* `strings.ToLower` and `strings.ToUpper` are modelled on ASCII letters, the
  Unicode case tables of the Go library are not part of the model: statements
  that go through them carry an ASCII hypothesis.
* A `dst` tree is a rose tree that keeps the node kinds the code looks at and
  the fields of them it reads or writes; `dstutil.Apply` with a `pre` callback
  is a pre-order walk that does not enter the children of a node on which the
  callback returned `false`.
* The file system maps a path to what `decorator.ParseFile` finds there.  The
  printer `decorator.Fprint` and the call `os.WriteFile` are not part of the
  code: for a type file they are a parameter of `UpdateGoTypesDST`, which gives
  their errors and the tree that is read back from the printed text; for a
  controller file, where the markers go to a declaration that has its own line,
  they are taken to succeed and the file to parse back to the printed tree.
* `cmd/main.go` is a list of declarations, which are import declarations or
  trees of the node kinds that `PatchMainNamespaceScopeDST` looks at; the
  function is given what `decorator.ParseFile` finds and returns the tree it
  writes.
* A webhook file is its text.  The patterns of `updateWebhookPath` all have the
  form of a literal text followed by `[^,\s]+`, and the functions of the Go
  package `regexp` are modelled for this form.  The run of the command
  `operator-sdk` is a parameter of `CreateWebhooks`.
-/

namespace OSDK

/-! ## Data model (`types.go`) -/

/-- Dynamic value of a Go `interface{}` as the code can see it: what
`encoding/json` decodes (`nil`, `bool`, `float64`, `string`, `[]interface{}`,
`map[string]interface{}`) and the `[]string` that `buildKubebuilderMarkers`
also tests for.  The payload of a number is never looked at by the code. -/
inductive Value where
  | null
  | bool (b : Bool)
  | number (n : Rat)
  | str (s : String)
  | list (vals : List Value)
  | object (entries : List (String × Value))
  | strings (vals : List String)

/-- Go `Validation`; `Typ` is the Go field `Type`. -/
structure Validation where
  Typ : String
  Value : Value

/-- Go `Property`; `Typ` is the Go field `Type`. -/
structure Property where
  Name : String
  Typ : String
  Validations : List Validation

/-- Go `RBACPermission`. -/
structure RBACPermission where
  Group : String
  Resources : String
  Verbs : String
  Preset : String
  deriving DecidableEq

/-- Go `WebhookConfig`; `Typ` is the Go field `Type`. -/
structure WebhookConfig where
  Typ : String
  AdmissionReviewVersions : List String
  FailurePolicy : String
  SideEffects : String
  MatchPolicy : String
  Path : String
  Operations : List String
  Resources : List String
  Enabled : Bool
  deriving DecidableEq

/-- Go `CRD`. -/
structure CRD where
  Group : String
  Version : String
  Kind : String
  Plural : String
  Controller : Bool
  Status : Bool
  RBAC : List RBACPermission
  Properties : List Property
  Webhooks : List WebhookConfig

/-- Go `OperatorData`. -/
structure OperatorData where
  Domain : String
  Repo : String
  ProjectName : String
  Namespaces : List String
  CRDs : List CRD

/-! ## Go library functions used by the code -/

namespace strings

/-- Go `strings.Join`. -/
def Join : List String → String → String
  | [], _ => ""
  | [a], _ => a
  | a :: b :: rest, sep => a ++ sep ++ Join (b :: rest) sep

/-- Go `strings.ToLower`, on ASCII letters. -/
def ToLower (s : String) : String := String.mk (s.data.map Char.toLower)

/-- Scan of Go `strings.FieldsFunc`: `cur` is the field being read (`start >= 0`
in the Go code) and `acc` the fields already closed. -/
def FieldsFunc.go (f : Char → Bool) : List Char → Option (List Char) → List (List Char) →
    List (List Char)
  | [], none, acc => acc
  | [], some cur, acc => acc ++ [cur]
  | r :: rest, none, acc =>
    if f r then FieldsFunc.go f rest none acc else FieldsFunc.go f rest (some [r]) acc
  | r :: rest, some cur, acc =>
    if f r then FieldsFunc.go f rest none (acc ++ [cur])
    else FieldsFunc.go f rest (some (cur ++ [r])) acc

/-- Go `strings.FieldsFunc`: the maximal runs of runes that do not satisfy `f`. -/
def FieldsFunc (s : String) (f : Char → Bool) : List String :=
  (FieldsFunc.go f s.data none []).map String.mk

end strings

namespace filepath

/-- Stack step of `Clean` for one path element: empty and `.` elements are
dropped, `..` removes the element before it when there is one that is not
itself `..`, is dropped at the root, and is kept otherwise. -/
def cleanStep (rooted : Bool) (stack : List (List Char)) (elem : List Char) :
    List (List Char) :=
  if elem = [] ∨ elem = ['.'] then stack
  else if elem = ['.', '.'] then
    match stack.getLast? with
    | none => if rooted then stack else stack ++ [elem]
    | some top => if top = ['.', '.'] then stack ++ [elem] else stack.dropLast
  else stack ++ [elem]

/-- Go `filepath.Clean` on Unix, on the elements of the path. -/
def cleanChars (path : List Char) : List Char :=
  if path = [] then ['.']
  else
    let rooted := path.head? == some '/'
    let stack := (path.splitOn '/').foldl (cleanStep rooted) []
    let body := List.intercalate ['/'] stack
    if rooted then '/' :: body
    else if body = [] then ['.'] else body

/-- Go `filepath.Clean`. -/
def Clean (path : String) : String := String.mk (cleanChars path.data)

/-- Go `filepath.Join`: the elements from the first non-empty one on, joined
with the separator and cleaned; the empty path when every element is empty. -/
def Join : List String → String
  | [] => ""
  | e :: rest => if e ≠ "" then Clean (strings.Join (e :: rest) "/") else Join rest

end filepath

/-! ## Grouping mode -/

/-- Loop of `hasMultipleGroups` over `crds[1:]`. -/
def hasMultipleGroups.loop (firstGroup : String) : List CRD → Bool
  | [] => false
  | crd :: rest => if crd.Group ≠ firstGroup then true else hasMultipleGroups.loop firstGroup rest

/-- Go `hasMultipleGroups`. -/
def hasMultipleGroups (crds : List CRD) : Bool :=
  match crds with
  | [] => false
  | [_] => false
  | first :: rest => hasMultipleGroups.loop first.Group rest

/-! ## Schema synthesizer -/

/-- Go type assertion `v.(string)`. -/
def Value.asString : Value → Option String
  | .str s => some s
  | _ => none

/-- The recurring branch `if s, ok := v.Value.(string); ok && s != ""` that
appends `lead + s`. -/
def appendStringMarker (markers : List String) (lead : String) (v : Value) : List String :=
  match v.asString with
  | some s => if s ≠ "" then markers ++ [lead ++ s] else markers
  | none => markers

/-- One iteration of the first loop of `buildKubebuilderMarkers`: the `switch`
on the validation kind. -/
def appendValidationMarker (markers : List String) (v : Validation) : List String :=
  match v.Typ with
  | "minLength" => appendStringMarker markers "+kubebuilder:validation:MinLength=" v.Value
  | "maxLength" => appendStringMarker markers "+kubebuilder:validation:MaxLength=" v.Value
  | "pattern" => appendStringMarker markers "+kubebuilder:validation:Pattern=" v.Value
  | "minimum" => appendStringMarker markers "+kubebuilder:validation:Minimum=" v.Value
  | "maximum" => appendStringMarker markers "+kubebuilder:validation:Maximum=" v.Value
  | "multipleOf" => appendStringMarker markers "+kubebuilder:validation:MultipleOf=" v.Value
  | "uniqueItems" =>
    match v.Value with
    | .bool true => markers ++ ["+kubebuilder:validation:UniqueItems=true"]
    | _ => markers
  | "minItems" => appendStringMarker markers "+kubebuilder:validation:MinItems=" v.Value
  | "maxItems" => appendStringMarker markers "+kubebuilder:validation:MaxItems=" v.Value
  | "minProperties" => appendStringMarker markers "+kubebuilder:validation:MinProperties=" v.Value
  | "maxProperties" => appendStringMarker markers "+kubebuilder:validation:MaxProperties=" v.Value
  | "format" => appendStringMarker markers "+kubebuilder:validation:Format=" v.Value
  | "enum" =>
    match v.Value with
    | .list vals =>
      if vals.length > 0 then
        let parts := vals.filterMap Value.asString
        if parts.length > 0 then
          markers ++ ["+kubebuilder:validation:Enum=" ++ strings.Join parts ","]
        else markers
      else markers
    | .strings vals =>
      if vals.length > 0 then
        markers ++ ["+kubebuilder:validation:Enum=" ++ strings.Join vals ","]
      else markers
    | _ => markers
  | "required" => markers ++ ["+kubebuilder:validation:Required"]
  | "optional" => markers ++ ["+kubebuilder:validation:Optional"]
  | "default" => appendStringMarker markers "+kubebuilder:default:=" v.Value
  | "example" => appendStringMarker markers "+kubebuilder:example:=" v.Value
  | "type" => appendStringMarker markers "+kubebuilder:validation:Type=" v.Value
  | _ => markers

/-- Go `buildKubebuilderMarkers`: the loop over the validations, then the loop
that puts the comment lead before every marker. -/
def buildKubebuilderMarkers (p : Property) : List String :=
  (p.Validations.foldl appendValidationMarker []).map (fun m => "// " ++ m)

/-- Go `GoTypeForProperty`. -/
def GoTypeForProperty (openapiType : String) : String :=
  match openapiType with
  | "string" => "string"
  | "integer" => "int"
  | "number" => "float64"
  | "boolean" => "bool"
  | "array" => "[]interface\x7b\x7d"
  | "object" => "map[string]interface\x7b\x7d"
  | _ => "interface\x7b\x7d"

/-- The expression `strings.ToUpper(part[:1]) + part[1:]` of `ToCamelCase` on a
non-empty part.  `part[:1]` is the first byte: for an ASCII rune it is the
rune, and `ToUpper` gives its upper case; for any other rune it is a lone lead
byte, which `ToUpper` turns into U+FFFD, and the bytes that follow it in
`part[1:]` read as one U+FFFD each. -/
def upperFirst : List Char → List Char
  | [] => []
  | r :: rest =>
    if r.toNat < 128 then r.toUpper :: rest
    else List.replicate r.utf8Size (Char.ofNat 0xFFFD) ++ rest

/-- Go `ToCamelCase`. -/
def ToCamelCase (s : String) : String :=
  let parts := strings.FieldsFunc s (fun r => r == '_' || r == '-')
  let parts := parts.map (fun part =>
    if part.length > 0 then String.mk (upperFirst part.data) else part)
  strings.Join parts ""

/-- The loop of `generateRBACMarkers` over the user permissions. -/
def generateRBACMarkers.loop (markers : List String) : List RBACPermission → List String
  | [] => markers
  | permission :: rest =>
    if permission.Group ≠ "" ∨ permission.Resources ≠ "" ∨ permission.Verbs ≠ "" then
      let group := if permission.Group = "" then "\"\"" else permission.Group
      generateRBACMarkers.loop
        (markers ++ ["// +kubebuilder:rbac:groups=" ++ group ++ ",resources="
          ++ permission.Resources ++ ",verbs=" ++ permission.Verbs]) rest
    else generateRBACMarkers.loop markers rest

/-- Go `generateRBACMarkers`. -/
def generateRBACMarkers (rbac : List RBACPermission) (crdGroup : String) : List String :=
  let markers : List String := []
  let markers := markers ++ ["// +kubebuilder:rbac:groups=" ++ crdGroup ++ ",resources="
    ++ strings.ToLower crdGroup ++ "s,verbs=get;list;watch;create;update;patch;delete"]
  let markers := markers ++ ["// +kubebuilder:rbac:groups=" ++ crdGroup ++ ",resources="
    ++ strings.ToLower crdGroup ++ "s/status,verbs=get;update;patch"]
  let markers := markers ++ ["// +kubebuilder:rbac:groups=" ++ crdGroup ++ ",resources="
    ++ strings.ToLower crdGroup ++ "s/finalizers,verbs=update"]
  generateRBACMarkers.loop markers rbac

/-! ## Decorated trees and the file system -/

/-- Type of a struct field: the identifier that `dst.NewIdent` builds, or any
other type expression, kept as its source text. -/
inductive FieldType where
  | Ident (Name : String)
  | Other (src : String)
  deriving DecidableEq

/-- Go `dst.SpaceType`, the line break before a node (`Decs.Before`): `None`,
the zero value, for no line break, so that what comes first of the node, its
first leading decoration or else the node itself, continues the line of what
stands before it; `NewLine` and `EmptyLine` for a node that begins a line. -/
inductive SpaceType where
  | None
  | NewLine
  | EmptyLine
  deriving DecidableEq

/-- Go `dst.Field`, with the fields that the code sets or leaves at their zero
value: the names, the type, the value of the tag literal, the line break
`Decs.Before` and the leading decorations `Decs.Start`.  `Typ` is the Go field
`Type`, `Before` is `Decs.Before` and `Decs` is `Decs.Start`.  The decorations
in `Decs` are the comment lines above the field only when there is a line break
before the field. -/
structure Field where
  Names : List String
  Typ : FieldType
  Tag : Option String
  Before : SpaceType
  Decs : List String
  deriving DecidableEq

/-- Type expression of a type declaration: a `dst.StructType` with its field
list, or any other expression, kept as its source text. -/
inductive Expr where
  | StructType (Fields : List Field)
  | Other (src : String)
  deriving DecidableEq

/-- Go `dst.TypeSpec`: declared name, leading decorations `Decs.Start` and the
type.  `Typ` is the Go field `Type` and `Decs` is `Decs.Start`.  In a
declaration with parentheses, `type ( ... )`, these decorations are the comment
lines above the specification.  In a declaration without parentheses,
`type Widget struct`, they stand between the keyword `type` and the name and
are empty in a file that the parser read: the comment lines above such a
declaration are decorations of the general declaration around it. -/
structure TypeSpec where
  Name : String
  Decs : List String
  Typ : Expr
  deriving DecidableEq

/-- Node of a decorated tree, in the order in which `dstutil.Apply` walks it.
A type specification has no type specification below it; a general declaration
(`dst.GenDecl`: `type`, `var`, `const`) has its field `Lparen`, which tells
whether it is written with parentheses, its leading decorations `Decs.Start`,
which are the comment lines above the declaration, and its specifications; a
function declaration has its name, its leading decorations and the nodes of its
body; every other node is kept with its children only. -/
inductive Node where
  | typeSpec (ts : TypeSpec)
  | genDecl (Lparen : Bool) (Decs : List String) (Specs : List Node)
  | funcDecl (Name : String) (Decs : List String) (Body : List Node)
  | other (children : List Node)

/-- What `decorator.ParseFile` finds at a path. -/
inductive FileState where
  | absent
  | unparsable (cause : String)
  | parsed (tree : Node)

/-- File system: the state of every path. -/
abbrev FileSystem := String → FileState

namespace decorator

/-- Go `decorator.ParseFile`: the tree of the file, or the error of the parser
or of the read. -/
def ParseFile (fs : FileSystem) (path : String) : Except String Node :=
  match fs path with
  | .absent => .error ("open " ++ path ++ ": no such file or directory")
  | .unparsable cause => .error cause
  | .parsed tree => .ok tree

end decorator

/-- The printer and the operating system behind `UpdateGoTypesDST`, which the
code calls and does not define.  `Fprint tree` is the error of
`decorator.Fprint` or, when the tree prints, the tree that
`decorator.ParseFile` reads from the printed text; the printer lays the
decorations out by the line breaks of the tree, so this is not in general the
tree that was printed.  `WriteFile path` is the error of `os.WriteFile` at the
path, `none` when the file is written. -/
structure Output where
  Fprint : Node → Except String Node
  WriteFile : String → Option String

/-- The file system after a successful `os.WriteFile` at `path` of a text that
`decorator.ParseFile` reads as `tree`. -/
def WriteFile (fs : FileSystem) (path : String) (tree : Node) : FileSystem :=
  fun p => if p = path then .parsed tree else fs p

/-! ## Type files: `UpdateGoTypesDST` -/

/-- Path `goFile` of `UpdateGoTypesDST`. -/
def goFile (projectDir : String) (needsMultiGroup : Bool) (crd : CRD) : String :=
  let apiDir :=
    if needsMultiGroup then filepath.Join [projectDir, "api", crd.Group, crd.Version]
    else filepath.Join [projectDir, "api", crd.Version]
  filepath.Join [apiDir, strings.ToLower crd.Kind ++ "_types.go"]

/-- Body of the loop over `crd.Properties` in `UpdateGoTypesDST`: the field of
one property.  The composite literal sets `Names`, `Type` and `Tag`, so the
decorations start at their zero value, without line break and without comment
lines, and only `Decs.Start` is assigned afterwards. -/
def newField (p : Property) : Field :=
  let goType := FieldType.Ident (GoTypeForProperty p.Typ)
  let markers := buildKubebuilderMarkers p
  let tags := "json:\"" ++ p.Name ++ ",omitempty\""
  { Names := [ToCamelCase p.Name]
    Typ := goType
    Tag := some ("`" ++ tags ++ "`")
    Before := SpaceType.None
    Decs := if markers.length > 0 then markers else [] }

/-- The `pre` callback of `UpdateGoTypesDST` on a type specification.  Its
boolean result is not kept: a type specification has no type specification
below it.  On every other node the callback returns `true` and changes
nothing. -/
def UpdateGoTypesDST.visit (crd : CRD) (ts : TypeSpec) : TypeSpec :=
  if ts.Name = crd.Kind then
    if crd.Status then { ts with Decs := ts.Decs ++ ["// +kubebuilder:subresource:status"] }
    else ts
  else if ts.Name ≠ crd.Kind ++ "Spec" then ts
  else
    match ts.Typ with
    | .StructType _ =>
      let fields := crd.Properties.foldl (fun fields p => fields ++ [newField p]) []
      { ts with Typ := .StructType fields }
    | .Other _ => ts

mutual
/-- The walk `dstutil.Apply(file, pre, nil)` of `UpdateGoTypesDST`. -/
def UpdateGoTypesDST.apply (crd : CRD) : Node → Node
  | .typeSpec ts => .typeSpec (UpdateGoTypesDST.visit crd ts)
  | .genDecl lparen decs specs => .genDecl lparen decs (UpdateGoTypesDST.applyList crd specs)
  | .funcDecl name decs body => .funcDecl name decs (UpdateGoTypesDST.applyList crd body)
  | .other children => .other (UpdateGoTypesDST.applyList crd children)
/-- The walk of `UpdateGoTypesDST` over the children of a node. -/
def UpdateGoTypesDST.applyList (crd : CRD) : List Node → List Node
  | [] => []
  | n :: ns => UpdateGoTypesDST.apply crd n :: UpdateGoTypesDST.applyList crd ns
end

/-- Loop of `UpdateGoTypesDST` over the resources: the returned error (`none`
for `nil`) and the file system it leaves.  Each of the three errors, of the
parser, of the printer and of the write, ends the loop; a file whose write
fails is taken to be as it was. -/
def UpdateGoTypesDST.loop (out : Output) (projectDir : String) (needsMultiGroup : Bool) :
    List CRD → FileSystem → Option String × FileSystem
  | [], fs => (none, fs)
  | crd :: rest, fs =>
    let path := goFile projectDir needsMultiGroup crd
    match decorator.ParseFile fs path with
    | .error err => (some ("parse " ++ path ++ ": " ++ err), fs)
    | .ok file =>
      match out.Fprint (UpdateGoTypesDST.apply crd file) with
      | .error err => (some ("print " ++ path ++ ": " ++ err), fs)
      | .ok printed =>
        match out.WriteFile path with
        | some err => (some ("write " ++ path ++ ": " ++ err), fs)
        | none =>
          UpdateGoTypesDST.loop out projectDir needsMultiGroup rest (WriteFile fs path printed)

/-- Go `UpdateGoTypesDST`. -/
def UpdateGoTypesDST (out : Output) (fs : FileSystem) (projectDir : String)
    (crds : List CRD) : Option String × FileSystem :=
  let needsMultiGroup := hasMultipleGroups crds
  UpdateGoTypesDST.loop out projectDir needsMultiGroup crds fs

/-! ## Controller files: `UpdateControllerRBAC` -/

/-- Path `controllerFile` of `UpdateControllerRBAC`. -/
def controllerFile (projectDir : String) (needsMultiGroup : Bool) (crd : CRD) : String :=
  let controllerDir :=
    if needsMultiGroup then filepath.Join [projectDir, "internal", "controller", crd.Group]
    else filepath.Join [projectDir, "internal", "controller"]
  filepath.Join [controllerDir, strings.ToLower crd.Kind ++ "_controller.go"]

mutual
/-- The walk `dstutil.Apply(file, pre, nil)` of `UpdateControllerRBAC`: the
markers are appended to the leading decorations of every function declaration
named `Reconcile`, whose body is not entered. -/
def UpdateControllerRBAC.apply (rbacMarkers : List String) : Node → Node
  | .typeSpec ts => .typeSpec ts
  | .genDecl lparen decs specs =>
    .genDecl lparen decs (UpdateControllerRBAC.applyList rbacMarkers specs)
  | .funcDecl name decs body =>
    if name ≠ "Reconcile" then .funcDecl name decs (UpdateControllerRBAC.applyList rbacMarkers body)
    else .funcDecl name (decs ++ rbacMarkers) body
  | .other children => .other (UpdateControllerRBAC.applyList rbacMarkers children)
/-- The walk of `UpdateControllerRBAC` over the children of a node. -/
def UpdateControllerRBAC.applyList (rbacMarkers : List String) : List Node → List Node
  | [] => []
  | n :: ns =>
    UpdateControllerRBAC.apply rbacMarkers n :: UpdateControllerRBAC.applyList rbacMarkers ns
end

/-- Loop of `UpdateControllerRBAC` over the resources. -/
def UpdateControllerRBAC.loop (projectDir : String) (needsMultiGroup : Bool) :
    List CRD → FileSystem → Option String × FileSystem
  | [], fs => (none, fs)
  | crd :: rest, fs =>
    if !crd.Controller then UpdateControllerRBAC.loop projectDir needsMultiGroup rest fs
    else
      let path := controllerFile projectDir needsMultiGroup crd
      match fs path with
      | .absent => UpdateControllerRBAC.loop projectDir needsMultiGroup rest fs
      | _ =>
        match decorator.ParseFile fs path with
        | .error err => (some ("parse controller file " ++ path ++ ": " ++ err), fs)
        | .ok file =>
          let rbacMarkers := generateRBACMarkers crd.RBAC crd.Group
          if rbacMarkers.length = 0 then
            UpdateControllerRBAC.loop projectDir needsMultiGroup rest fs
          else
            UpdateControllerRBAC.loop projectDir needsMultiGroup rest
              (WriteFile fs path (UpdateControllerRBAC.apply rbacMarkers file))

/-- Go `UpdateControllerRBAC`. -/
def UpdateControllerRBAC (fs : FileSystem) (projectDir : String) (crds : List CRD) :
    Option String × FileSystem :=
  let needsMultiGroup := hasMultipleGroups crds
  UpdateControllerRBAC.loop projectDir needsMultiGroup crds fs

/-! ## Webhook files -/

/-- Path `webhookFile` of `updateWebhookPath`; the resource list that the
function also receives is not used for it. -/
def webhookFile (projectDir : String) (crd : CRD) : String :=
  filepath.Join [projectDir, "internal", "webhook", crd.Version,
    strings.ToLower crd.Kind ++ "_webhook.go"]

/-! ## The manager file: `PatchMainNamespaceScopeDST` -/

/-- Go `token.Token`, the kinds of a basic literal. -/
inductive Token where
  | INT
  | FLOAT
  | IMAG
  | CHAR
  | STRING
  deriving DecidableEq

/-- Type of a composite literal (`nil` when it is left out): an identifier, a
selector on an identifier such as `cache.Options`, a map type, or any other
type expression, kept as its source text.  A type expression holds no call. -/
inductive LitType where
  | absent
  | Ident (Name : String)
  | SelectorExpr (X : String) (Sel : String)
  | MapType (Key : LitType) (Value : LitType)
  | Other (src : String)
  deriving DecidableEq

/-- Node of the decorated tree of a declaration of `cmd/main.go`, with the node
kinds that `PatchMainNamespaceScopeDST` looks at or builds; every other node
is kept with its children, in the order in which `dstutil.Apply` walks them.
`Typ` is the Go field `Type`. -/
inductive Ast where
  | Ident (Name : String)
  | BasicLit (Kind : Token) (Value : String)
  | SelectorExpr (X : Ast) (Sel : String)
  | CallExpr (Fun : Ast) (Args : List Ast)
  | CompositeLit (Typ : LitType) (Elts : List Ast)
  | KeyValueExpr (Key : Ast) (Value : Ast)
  | Other (children : List Ast)

/-- Go `dst.ImportSpec`: the local name, when there is one, and the value of
the path literal, quotes included. -/
structure ImportSpec where
  Name : Option String
  Path : String
  deriving DecidableEq

/-- Declaration of a file: a `dst.GenDecl` with token `IMPORT`, whose
specifications are import specifications, or any other declaration.  The parser
gives import declarations at the top level of a file only. -/
inductive Decl where
  | Import (Specs : List ImportSpec)
  | Other (node : Ast)

/-- Go `dst.File`: the declarations. -/
structure File where
  Decls : List Decl

/-- Path `mainPath` of `PatchMainNamespaceScopeDST`. -/
def mainPath (projectDir : String) : String := filepath.Join [projectDir, "cmd", "main.go"]

/-- The import path that `PatchMainNamespaceScopeDST` looks for and adds, as
the value of a string literal. -/
def cacheImportPath : String := "\"sigs.k8s.io/controller-runtime/pkg/cache\""

/-- The test on an element of the option literal: a `KeyValueExpr` whose key is
the identifier `Cache`. -/
def isCacheKey : Ast → Bool
  | .KeyValueExpr (.Ident name) _ => name == "Cache"
  | _ => false

/-- The loop that sets `cacheFieldIdx`: the index of the first element keyed
`Cache`, `none` for `-1`. -/
def cacheFieldIdx.loop : List Ast → Nat → Option Nat
  | [], _ => none
  | elt :: rest, i => if isCacheKey elt then some i else cacheFieldIdx.loop rest (i + 1)

/-- Value of `cacheFieldIdx` for the elements of the option literal. -/
def cacheFieldIdx (elts : List Ast) : Option Nat := cacheFieldIdx.loop elts 0

/-- The element `cacheConfig` that `PatchMainNamespaceScopeDST` builds:
`Cache: cache.Options{DefaultNamespaces: map[string]cache.Config{...}}` with
one entry per namespace. -/
def cacheConfig (namespaces : List String) : Ast :=
  let mapElts := namespaces.foldl (fun mapElts ns =>
    mapElts ++ [Ast.KeyValueExpr (.BasicLit .STRING ("\"" ++ ns ++ "\""))
      (.CompositeLit (.SelectorExpr "cache" "Config") [])]) []
  .KeyValueExpr (.Ident "Cache")
    (.CompositeLit (.SelectorExpr "cache" "Options")
      [.KeyValueExpr (.Ident "DefaultNamespaces")
        (.CompositeLit (.MapType (.Ident "string") (.SelectorExpr "cache" "Config")) mapElts)])

/-- What the callback of the first walk does to the elements of the option
literal: with an empty namespace list the element at `cacheFieldIdx` is
removed; otherwise `cacheConfig` is put at `cacheFieldIdx`, or appended when
there is no such index. -/
def patchElts (namespaces : List String) (elts : List Ast) : List Ast :=
  let idx := cacheFieldIdx elts
  if namespaces.length = 0 then
    match idx with
    | some i => elts.take i ++ elts.drop (i + 1)
    | none => elts
  else
    match idx with
    | some i => elts.set i (cacheConfig namespaces)
    | none => elts ++ [cacheConfig namespaces]

/-- The `pre` callback of the first walk on a call with callee `fn`: the
arguments it leaves.  The option literal is patched when the callee is a
selector expression that selects `NewManager`, there are two arguments and the
second is a composite literal. -/
def PatchMainNamespaceScopeDST.visit (namespaces : List String) (fn : Ast) (args : List Ast) :
    List Ast :=
  match fn, args with
  | .SelectorExpr _ sel, [config, .CompositeLit typ elts] =>
    if sel = "NewManager" then [config, .CompositeLit typ (patchElts namespaces elts)] else args
  | _, _ => args

mutual
/-- The first walk `dstutil.Apply(fileAst, pre, nil)` of
`PatchMainNamespaceScopeDST` on a node.  The callback runs on a call before
the walk enters its children; it is written here after the walk of the
arguments, which gives the same tree (`PatchMainNamespaceScopeDST_apply_call`):
the callback reads the keys of the elements only, which the walk leaves as
they are, and the element it builds holds no call. -/
def PatchMainNamespaceScopeDST.apply (namespaces : List String) : Ast → Ast
  | .Ident name => .Ident name
  | .BasicLit kind value => .BasicLit kind value
  | .SelectorExpr x sel => .SelectorExpr (PatchMainNamespaceScopeDST.apply namespaces x) sel
  | .CallExpr fn args =>
    .CallExpr (PatchMainNamespaceScopeDST.apply namespaces fn)
      (PatchMainNamespaceScopeDST.visit namespaces fn
        (PatchMainNamespaceScopeDST.applyList namespaces args))
  | .CompositeLit typ elts =>
    .CompositeLit typ (PatchMainNamespaceScopeDST.applyList namespaces elts)
  | .KeyValueExpr key value =>
    .KeyValueExpr (PatchMainNamespaceScopeDST.apply namespaces key)
      (PatchMainNamespaceScopeDST.apply namespaces value)
  | .Other children => .Other (PatchMainNamespaceScopeDST.applyList namespaces children)
/-- The first walk of `PatchMainNamespaceScopeDST` over the children of a
node. -/
def PatchMainNamespaceScopeDST.applyList (namespaces : List String) : List Ast → List Ast
  | [] => []
  | n :: ns =>
    PatchMainNamespaceScopeDST.apply namespaces n
      :: PatchMainNamespaceScopeDST.applyList namespaces ns
end

/-- The test of the callback of the first walk on a call, which sets `found`. -/
def isManagerCall (fn : Ast) (args : List Ast) : Bool :=
  match fn, args with
  | .SelectorExpr _ sel, [_, .CompositeLit _ _] => sel == "NewManager"
  | _, _ => false

mutual
/-- Value of `found` after the first walk of a node: the node holds a call that
passes the test of the callback.  The walk does not reach a call that lies in
an element it has removed or replaced, and then it has set `found` at the call
that holds this element. -/
def hasManagerCall : Ast → Bool
  | .Ident _ => false
  | .BasicLit _ _ => false
  | .SelectorExpr x _ => hasManagerCall x
  | .CallExpr fn args => isManagerCall fn args || hasManagerCall fn || hasManagerCallList args
  | .CompositeLit _ elts => hasManagerCallList elts
  | .KeyValueExpr key value => hasManagerCall key || hasManagerCall value
  | .Other children => hasManagerCallList children
/-- Value of `found` after the first walk of the children of a node. -/
def hasManagerCallList : List Ast → Bool
  | [] => false
  | n :: ns => hasManagerCall n || hasManagerCallList ns
end

/-- The second walk of `PatchMainNamespaceScopeDST` over the declarations, with
the variable `foundImport`: at an import declaration the path is looked for,
and appended when `foundImport` is still false; `foundImport` is true after
every import declaration.  The other declarations are left as they are. -/
def ensureImport.loop : List Decl → Bool → List Decl × Bool
  | [], foundImport => ([], foundImport)
  | .Import specs :: rest, foundImport =>
    let foundImport := foundImport || specs.any (fun spec => spec.Path == cacheImportPath)
    let specs :=
      if !foundImport then specs ++ [{ Name := none, Path := cacheImportPath }] else specs
    let (rest, foundImport) := ensureImport.loop rest true
    (.Import specs :: rest, foundImport)
  | .Other node :: rest, foundImport =>
    let (rest, foundImport) := ensureImport.loop rest foundImport
    (.Other node :: rest, foundImport)

/-- The second walk and what follows it: when `foundImport` is still false
after the walk, a new import declaration with the path is put before the
declarations of the file. -/
def ensureImport (decls : List Decl) : List Decl :=
  let (decls, foundImport) := ensureImport.loop decls false
  if !foundImport then Decl.Import [{ Name := none, Path := cacheImportPath }] :: decls
  else decls

/-- The first walk on a declaration: an import declaration holds no call. -/
def PatchMainNamespaceScopeDST.applyDecl (namespaces : List String) : Decl → Decl
  | .Import specs => .Import specs
  | .Other node => .Other (PatchMainNamespaceScopeDST.apply namespaces node)

/-- Value of `found` after the first walk of a declaration. -/
def Decl.hasManagerCall : Decl → Bool
  | .Import _ => false
  | .Other node => OSDK.hasManagerCall node

/-- The tree that `PatchMainNamespaceScopeDST` builds from the parsed file, and
the value of `found`: the first walk over every declaration, then the second
walk with the new import declaration when it is needed. -/
def PatchMainNamespaceScopeDST.patch (namespaces : List String) (fileAst : File) : File × Bool :=
  let found := fileAst.Decls.any Decl.hasManagerCall
  let decls := fileAst.Decls.map (PatchMainNamespaceScopeDST.applyDecl namespaces)
  ({ Decls := ensureImport decls }, found)

/-- Go `PatchMainNamespaceScopeDST`, on what `decorator.ParseFile` gives for
`cmd/main.go`: the returned error (`none` for `nil`) and the tree written to
the file, `none` when the file is not written. -/
def PatchMainNamespaceScopeDST (parsed : Except String File) (namespaces : List String) :
    Option String × Option File :=
  match parsed with
  | .error err => (some ("parse main.go: " ++ err), none)
  | .ok fileAst =>
    let (tree, found) := PatchMainNamespaceScopeDST.patch namespaces fileAst
    (none, if found then some tree else none)

/-- The step of `runOperatorSDK` that patches `cmd/main.go` for the request
bound from the payload: the call of `PatchMainNamespaceScopeDST` and its
arguments. -/
def runOperatorSDK.patchMain (request : OperatorData) (parsed : Except String File) :
    Option String × Option File :=
  PatchMainNamespaceScopeDST parsed ["default"]

/-! ## Webhook files: `CreateWebhooks` and `updateWebhookPath` -/

namespace regexp

/-- The class `[^,\s]` of the patterns of `updateWebhookPath`: every rune but
the comma and the white space `\t`, `\n`, `\f`, `\r` and the blank. -/
def isValueRune (r : Char) : Bool :=
  !(r == ',' || r == '\t' || r == '\n' || r == Char.ofNat 12 || r == '\r' || r == ' ')

/-- Length of the match of the pattern `literal[^,\s]+` at the start of `s`:
the literal text, then the longest run of runes of the class, which is not
empty. -/
def matchAt (literal s : List Char) : Option Nat :=
  if literal.isPrefixOf s then
    let run := (s.drop literal.length).takeWhile isValueRune
    if run.length > 0 then some (literal.length + run.length) else none
  else none

/-- Whether the pattern `literal[^,\s]+` has a match that starts somewhere in
`s`. -/
def matchAnywhere (literal : List Char) : List Char → Bool
  | [] => false
  | r :: rest => (matchAt literal (r :: rest)).isSome || matchAnywhere literal rest

/-- Go `Regexp.MatchString` for the pattern `literal[^,\s]+`; the patterns of
`updateWebhookPath` are all of this form, with the `+` of the path marker
escaped. -/
def MatchString (literal s : String) : Bool := matchAnywhere literal.data s.data

/-- The function `extract` of the Go package on the text after a `$`: the name,
between braces or not, and the number of runes read.  A name is a non-empty run
of letters, digits and `_`, taken here among the ASCII characters. -/
def extract (str : List Char) : Option (List Char × Nat) :=
  let brace := str.head? == some (Char.ofNat 123)
  let body := if brace then str.drop 1 else str
  let name := body.takeWhile (fun r => r.isAlphanum || r == '_')
  if name.length = 0 then none
  else if brace then
    if (body.drop name.length).head? == some (Char.ofNat 125) then some (name, name.length + 2)
    else none
  else some (name, name.length)

/-- Scan of Go `Regexp.expand` over the template, for a pattern without groups;
`skip` counts the runes of the template that are already read.  `$$` gives
`$`, `$0` and `$` with `0` between braces give the matched text, every other
well-formed reference gives nothing, and a `$` that starts no reference stays
as it is. -/
def expand.go (matched : List Char) : List Char → Nat → List Char
  | [], _ => []
  | _ :: rest, skip + 1 => expand.go matched rest skip
  | r :: rest, 0 =>
    if r != '$' then r :: expand.go matched rest 0
    else
      match rest with
      | '$' :: _ => '$' :: expand.go matched rest 1
      | _ =>
        match extract rest with
        | none => '$' :: expand.go matched rest 0
        | some (name, n) => (if name = ['0'] then matched else []) ++ expand.go matched rest n

/-- Go `Regexp.expand` of a replacement template for one match. -/
def expand (template matched : List Char) : List Char := expand.go matched template 0

/-- Scan of Go `Regexp.ReplaceAllString` over the source: at a position where the
pattern matches, the expanded replacement is written and the scan goes on after
the match (`skip` counts the runes of the match still to pass); elsewhere the
rune is copied. -/
def ReplaceAllString.go (literal repl : List Char) : List Char → Nat → List Char
  | [], _ => []
  | _ :: rest, skip + 1 => ReplaceAllString.go literal repl rest skip
  | r :: rest, 0 =>
    match matchAt literal (r :: rest) with
    | some n => expand repl ((r :: rest).take n) ++ ReplaceAllString.go literal repl rest (n - 1)
    | none => r :: ReplaceAllString.go literal repl rest 0

/-- Go `Regexp.ReplaceAllString` for the pattern `literal[^,\s]+`. -/
def ReplaceAllString (literal src repl : String) : String :=
  String.mk (ReplaceAllString.go literal.data repl.data src.data 0)

end regexp

/-- Text files: the content at every path, `none` where there is no file. -/
abbrev TextFiles := String → Option String

/-- Go `os.WriteFile` on text files. -/
def TextFiles.write (files : TextFiles) (path content : String) : TextFiles :=
  fun p => if p = path then some content else files p

/-- The recurring block of `updateWebhookPath` for one attribute: when the
pattern of the attribute matches, every match is replaced by the attribute with
the new value. -/
def updateWebhookPath.replace (literal value updatedContent : String) : String :=
  if regexp.MatchString literal updatedContent then
    regexp.ReplaceAllString literal updatedContent (literal ++ value)
  else updatedContent

/-- The content that `updateWebhookPath` writes for the content it has read:
the path, then the failure policy, the side effects, the match policy and the
admission review versions, each of the last four when its override is not
empty. -/
def updateWebhookPath.patch (webhook : WebhookConfig) (content : String) : String :=
  let updatedContent := content
  let updatedContent :=
    updateWebhookPath.replace "//+kubebuilder:webhook:path=" webhook.Path updatedContent
  let updatedContent :=
    if webhook.FailurePolicy ≠ "" then
      updateWebhookPath.replace "failurePolicy=" webhook.FailurePolicy updatedContent
    else updatedContent
  let updatedContent :=
    if webhook.SideEffects ≠ "" then
      updateWebhookPath.replace "sideEffects=" webhook.SideEffects updatedContent
    else updatedContent
  let updatedContent :=
    if webhook.MatchPolicy ≠ "" then
      updateWebhookPath.replace "matchPolicy=" webhook.MatchPolicy updatedContent
    else updatedContent
  let updatedContent :=
    if webhook.AdmissionReviewVersions.length > 0 then
      let versions := strings.Join webhook.AdmissionReviewVersions ";"
      updateWebhookPath.replace "admissionReviewVersions=" versions updatedContent
    else updatedContent
  updatedContent

/-- Go `updateWebhookPath`: the returned error (`none` for `nil`) and the files
it leaves.  A file that exists is taken to be readable and writable. -/
def updateWebhookPath (files : TextFiles) (projectDir : String) (crd : CRD)
    (webhook : WebhookConfig) (_crds : List CRD) : Option String × TextFiles :=
  let path := webhookFile projectDir crd
  match files path with
  | none => (none, files)
  | some content => (none, files.write path (updateWebhookPath.patch webhook content))

/-- The arguments of the command `operator-sdk` that `CreateWebhooks` runs for
one webhook definition. -/
def CreateWebhooks.args (crd : CRD) (webhook : WebhookConfig) : List String :=
  let args := ["create", "webhook", "--group", crd.Group, "--version", crd.Version,
    "--kind", crd.Kind, "--make=false"]
  match webhook.Typ with
  | "mutating" => args ++ ["--defaulting"]
  | "validating" => args ++ ["--validation"]
  | "conversion" => args ++ ["--conversion"]
  | _ => args ++ ["--defaulting"]

/-- The inner loop of `CreateWebhooks` over the webhook definitions of one
resource.  `scaffold projectDir args files` stands for the run of the command
`operator-sdk` in the project directory: whether it succeeded, and the files it
leaves. -/
def CreateWebhooks.webhooks (scaffold : String → List String → TextFiles → Bool × TextFiles)
    (projectDir : String) (crds : List CRD) (crd : CRD) :
    List WebhookConfig → TextFiles → TextFiles
  | [], files => files
  | webhook :: rest, files =>
    let (ok, files) := scaffold projectDir (CreateWebhooks.args crd webhook) files
    if !ok then CreateWebhooks.webhooks scaffold projectDir crds crd rest files
    else if webhook.Path ≠ "" then
      CreateWebhooks.webhooks scaffold projectDir crds crd rest
        (updateWebhookPath files projectDir crd webhook crds).2
    else CreateWebhooks.webhooks scaffold projectDir crds crd rest files

/-- The outer loop of `CreateWebhooks` over the resources; `crds` is the whole
list. -/
def CreateWebhooks.loop (scaffold : String → List String → TextFiles → Bool × TextFiles)
    (projectDir : String) (crds : List CRD) : List CRD → TextFiles → TextFiles
  | [], files => files
  | crd :: rest, files =>
    if crd.Webhooks.length = 0 then CreateWebhooks.loop scaffold projectDir crds rest files
    else
      CreateWebhooks.loop scaffold projectDir crds rest
        (CreateWebhooks.webhooks scaffold projectDir crds crd crd.Webhooks files)

/-- Go `CreateWebhooks`: the returned error, which is always `nil`, and the
files it leaves. -/
def CreateWebhooks (scaffold : String → List String → TextFiles → Bool × TextFiles)
    (files : TextFiles) (projectDir : String) (crds : List CRD) : Option String × TextFiles :=
  (none, CreateWebhooks.loop scaffold projectDir crds crds files)

/-! ## Vocabulary of the statements -/

mutual
/-- Type specifications of a tree, in walk order. -/
def Node.typeSpecs : Node → List TypeSpec
  | .typeSpec ts => [ts]
  | .genDecl _ _ specs => Node.typeSpecsList specs
  | .funcDecl _ _ body => Node.typeSpecsList body
  | .other children => Node.typeSpecsList children
/-- Type specifications of a list of trees, in walk order. -/
def Node.typeSpecsList : List Node → List TypeSpec
  | [] => []
  | n :: ns => Node.typeSpecs n ++ Node.typeSpecsList ns
end

mutual
/-- Leading decorations of the function declarations named `name` that the
walk of `UpdateControllerRBAC` reaches (it does not enter the body of such a
declaration), in walk order. -/
def Node.funcDecs (name : String) : Node → List (List String)
  | .typeSpec _ => []
  | .genDecl _ _ specs => Node.funcDecsList name specs
  | .funcDecl n decs body => if n = name then [decs] else Node.funcDecsList name body
  | .other children => Node.funcDecsList name children
/-- Leading decorations of the function declarations named `name` over a list
of trees. -/
def Node.funcDecsList (name : String) : List Node → List (List String)
  | [] => []
  | n :: ns => Node.funcDecs name n ++ Node.funcDecsList name ns
end

/-- The resource of the end-to-end scenario of the specification: group `apps`,
version `v1`, kind `Widget`, with controller and status, and the one property
`replica_count` of type `integer` with minimum `1`. -/
def scenarioWidget : CRD :=
  { Group := "apps", Version := "v1", Kind := "Widget", Plural := "widgets",
    Controller := true, Status := true, RBAC := [],
    Properties := [{ Name := "replica_count", Typ := "integer",
                     Validations := [{ Typ := "minimum", Value := .str "1" }] }],
    Webhooks := [] }

/-- A scaffolded type file for `Widget`: the declarations `WidgetSpec` (with the
placeholder field `Foo` on a line of its own, below its comment line),
`WidgetStatus` and `Widget`, each written without parentheses and with its
comment lines above the keyword `type`, and the `init` function. -/
def scenarioTypes : Node :=
  .other
    [.genDecl false ["// WidgetSpec defines the desired state of Widget"]
      [.typeSpec { Name := "WidgetSpec", Decs := [],
                   Typ := .StructType
                     [{ Names := ["Foo"], Typ := .Ident "string",
                        Tag := some "`json:\"foo,omitempty\"`",
                        Before := SpaceType.NewLine,
                        Decs := ["// Foo is an example field of Widget"] }] }],
     .genDecl false ["// WidgetStatus defines the observed state of Widget"]
      [.typeSpec { Name := "WidgetStatus", Decs := [], Typ := .StructType [] }],
     .genDecl false ["// +kubebuilder:object:root=true"]
      [.typeSpec { Name := "Widget", Decs := [], Typ := .StructType [] }],
     .funcDecl "init" [] []]

/-- A type file that parses and declares only `Widget`, without any
`WidgetSpec`. -/
def scenarioTypesNoSpec : Node :=
  .other
    [.genDecl false ["// +kubebuilder:object:root=true"]
      [.typeSpec { Name := "Widget", Decs := [], Typ := .StructType [] }]]

/-- A printer and an operating system that do not fail.  The tree read back
from the printed text is taken to be the printed tree; the statements that use
this scenario are about the returned error and do not look at it. -/
def scenarioOutput : Output :=
  { Fprint := fun tree => .ok tree
    WriteFile := fun _ => none }

/-- The 18 validation kinds that `buildKubebuilderMarkers` recognizes. -/
def recognizedKinds : List String :=
  ["minLength", "maxLength", "pattern", "minimum", "maximum", "multipleOf", "uniqueItems",
   "minItems", "maxItems", "minProperties", "maxProperties", "format", "enum", "required",
   "optional", "default", "example", "type"]

/-- The validation kinds whose marker is `+kubebuilder:validation:<K>=<value>`,
each with its `<K>`: the kind with its first letter in upper case. -/
def valueKinds : List (String × String) :=
  [("minLength", "MinLength"), ("maxLength", "MaxLength"), ("pattern", "Pattern"),
   ("minimum", "Minimum"), ("maximum", "Maximum"), ("multipleOf", "MultipleOf"),
   ("minItems", "MinItems"), ("maxItems", "MaxItems"), ("minProperties", "MinProperties"),
   ("maxProperties", "MaxProperties"), ("format", "Format"), ("type", "Type")]

/-- A property that holds exactly one validation, of kind `k` and value `x`. -/
def oneValidation (name typ k : String) (x : Value) : Property :=
  { Name := name, Typ := typ, Validations := [{ Typ := k, Value := x }] }

/-- Separator of `ToCamelCase`. -/
def isSeparator (r : Char) : Bool := r == '_' || r == '-'

/-- A segment with its first character turned to upper case. -/
def capitalize : List Char → List Char
  | [] => []
  | r :: rest => r.toUpper :: rest

/-- Camel case as the specification words it: the non-empty maximal segments
between separators, each capitalized, concatenated in order. -/
def camelCaseOfSegments (name : String) : String :=
  String.mk (((name.data.splitOnP isSeparator).filter (fun seg => seg ≠ [])).map
    capitalize).flatten

/-- Text made of ASCII characters. -/
def isASCII (s : String) : Prop := ∀ r ∈ s.data, r.toNat < 128

/-- Non-empty text of ASCII letters and digits. -/
def isAlphanumeric (s : String) : Prop := s ≠ "" ∧ ∀ r ∈ s.data, r.isAlphanum = true

/-- Path element that `Clean` keeps as it is: not empty, without separator,
neither `.` nor `..`. -/
def isPlainElement (e : String) : Prop :=
  e ≠ "" ∧ '/' ∉ e.data ∧ e ≠ "." ∧ e ≠ ".."

/-- A user permission that `generateRBACMarkers` skips: group, resources and
verbs are all empty. -/
def RBACPermission.isBlank (permission : RBACPermission) : Bool :=
  permission.Group == "" && permission.Resources == "" && permission.Verbs == ""

/-- Import paths of a file, over all its import declarations, in order. -/
def File.importPaths (file : File) : List String :=
  file.Decls.flatMap (fun decl =>
    match decl with
    | .Import specs => specs.map ImportSpec.Path
    | .Other _ => [])

/-- A scaffolded `cmd/main.go`: one import declaration, without the cache
package, and the function `main` with the call
`ctrl.NewManager(ctrl.GetConfigOrDie(), ctrl.Options{Scheme: scheme})`. -/
def scenarioMain : File :=
  { Decls :=
    [.Import [{ Name := none, Path := "\"os\"" },
              { Name := some "ctrl", Path := "\"sigs.k8s.io/controller-runtime\"" }],
     .Other (.Other
       [.CallExpr (.SelectorExpr (.Ident "ctrl") "NewManager")
         [.CallExpr (.SelectorExpr (.Ident "ctrl") "GetConfigOrDie") [],
          .CompositeLit (.SelectorExpr "ctrl" "Options")
            [.KeyValueExpr (.Ident "Scheme") (.Ident "scheme")]]])] }

/-- A `cmd/main.go` with two import declarations, the second of which holds the
cache package, and the same function `main`, where the option literal has a
`Cache` element. -/
def scenarioMainTwoImports : File :=
  { Decls :=
    [.Import [{ Name := none, Path := "\"os\"" }],
     .Import [{ Name := some "ctrl", Path := "\"sigs.k8s.io/controller-runtime\"" },
              { Name := none, Path := "\"sigs.k8s.io/controller-runtime/pkg/cache\"" }],
     .Other (.Other
       [.CallExpr (.SelectorExpr (.Ident "ctrl") "NewManager")
         [.CallExpr (.SelectorExpr (.Ident "ctrl") "GetConfigOrDie") [],
          .CompositeLit (.SelectorExpr "ctrl" "Options")
            [.KeyValueExpr (.Ident "Scheme") (.Ident "scheme"),
             .KeyValueExpr (.Ident "Cache")
               (.CompositeLit (.SelectorExpr "cache" "Options") [])]]])] }

/-- A scaffolded webhook file of `Widget` with a defaulting and a validating
marker, each with its path and failure policy. -/
def scenarioWebhook : String :=
  "//+kubebuilder:webhook:path=/mutate-apps-v1-widget,mutating=true,failurePolicy=fail,sideEffects=None\n//+kubebuilder:webhook:path=/validate-apps-v1-widget,mutating=false,failurePolicy=fail,sideEffects=None\n"

/-- A run of the command `operator-sdk` that succeeds and leaves the scaffolded
webhook file of `Widget` in the project `/tmp/sdk-1`. -/
def scenarioScaffold (_projectDir : String) (_args : List String) (files : TextFiles) :
    Bool × TextFiles :=
  (true, files.write "/tmp/sdk-1/internal/webhook/v1/widget_webhook.go" scenarioWebhook)

/-! ## Validation markers -/

theorem appendStringMarker_nil (markers : List String) (lead : String) (v : Value) :
    appendStringMarker markers lead v = markers ++ appendStringMarker [] lead v := by
  unfold appendStringMarker
  split
  · split <;> simp
  · simp

theorem appendValidationMarker_nil (markers : List String) (v : Validation) :
    appendValidationMarker markers v = markers ++ appendValidationMarker [] v := by
  unfold appendValidationMarker
  split
  any_goals exact appendStringMarker_nil _ _ _
  · split <;> simp
  · split
    · split
      · dsimp only
        split <;> simp
      · simp
    · split <;> simp
    · simp
  · simp
  · simp
  · simp

theorem foldl_appendValidationMarker (markers : List String) (vs : List Validation) :
    vs.foldl appendValidationMarker markers
      = markers ++ vs.foldl appendValidationMarker [] := by
  induction vs generalizing markers with
  | nil => simp
  | cons v vs ih =>
    simp only [List.foldl_cons]
    rw [ih (appendValidationMarker markers v), ih (appendValidationMarker [] v),
      appendValidationMarker_nil markers v, List.append_assoc]

/-- C2: a property with exactly one validation of kind `k` and value `x` gets,
for the twelve kinds of `valueKinds`, the one line
`// +kubebuilder:validation:<K>=<x>` (`K` is `k` with its first letter in
upper case) when `x` is a non-empty string and no line otherwise; for
`default` and `example` the one line `// +kubebuilder:default:=<x>`,
`// +kubebuilder:example:=<x>` under the same condition; for `uniqueItems` the
line `// +kubebuilder:validation:UniqueItems=true` exactly when `x` is the
boolean `true`; for `required` and `optional` their line whatever `x` is; and
no line for a kind outside the 18 recognized ones. -/
theorem buildKubebuilderMarkers_single (name typ : String) (x : Value) :
    (∀ kK ∈ valueKinds, kK.2 = String.mk (capitalize kK.1.data) ∧
      (∀ s, x = .str s → s ≠ "" →
        buildKubebuilderMarkers (oneValidation name typ kK.1 x)
          = ["// +kubebuilder:validation:" ++ kK.2 ++ "=" ++ s]) ∧
      ((∀ s, x = .str s → s = "") →
        buildKubebuilderMarkers (oneValidation name typ kK.1 x) = [])) ∧
    (∀ s, x = .str s → s ≠ "" →
      buildKubebuilderMarkers (oneValidation name typ "default" x)
        = ["// +kubebuilder:default:=" ++ s]) ∧
    ((∀ s, x = .str s → s = "") →
      buildKubebuilderMarkers (oneValidation name typ "default" x) = []) ∧
    (∀ s, x = .str s → s ≠ "" →
      buildKubebuilderMarkers (oneValidation name typ "example" x)
        = ["// +kubebuilder:example:=" ++ s]) ∧
    ((∀ s, x = .str s → s = "") →
      buildKubebuilderMarkers (oneValidation name typ "example" x) = []) ∧
    (x = .bool true →
      buildKubebuilderMarkers (oneValidation name typ "uniqueItems" x)
        = ["// +kubebuilder:validation:UniqueItems=true"]) ∧
    (x ≠ .bool true →
      buildKubebuilderMarkers (oneValidation name typ "uniqueItems" x) = []) ∧
    buildKubebuilderMarkers (oneValidation name typ "required" x)
      = ["// +kubebuilder:validation:Required"] ∧
    buildKubebuilderMarkers (oneValidation name typ "optional" x)
      = ["// +kubebuilder:validation:Optional"] ∧
    (∀ k, k ∉ recognizedKinds → buildKubebuilderMarkers (oneValidation name typ k x) = []) := by
  refine ⟨?_, ?_, ?_, ?_, ?_, ?_, ?_, ?_, ?_, ?_⟩
  · intro kK hk
    simp only [valueKinds, List.mem_cons, List.mem_singleton, List.not_mem_nil, or_false] at hk
    refine ⟨?_, ?_, ?_⟩
    · rcases hk with rfl | rfl | rfl | rfl | rfl | rfl | rfl | rfl | rfl | rfl | rfl | rfl <;>
        decide
    · intro s hx hs
      subst hx
      rcases hk with rfl | rfl | rfl | rfl | rfl | rfl | rfl | rfl | rfl | rfl | rfl | rfl <;>
        simp [buildKubebuilderMarkers, oneValidation, appendValidationMarker,
          appendStringMarker, Value.asString, hs, String.ext_iff]
    · intro hx
      rcases hk with rfl | rfl | rfl | rfl | rfl | rfl | rfl | rfl | rfl | rfl | rfl | rfl <;>
        cases x <;>
        simp_all [buildKubebuilderMarkers, oneValidation, appendValidationMarker,
          appendStringMarker, Value.asString]
  · intro s hx hs
    subst hx
    simp [buildKubebuilderMarkers, oneValidation, appendValidationMarker,
      appendStringMarker, Value.asString, hs, String.ext_iff]
  · intro hx
    cases x <;>
      simp_all [buildKubebuilderMarkers, oneValidation, appendValidationMarker,
        appendStringMarker, Value.asString]
  · intro s hx hs
    subst hx
    simp [buildKubebuilderMarkers, oneValidation, appendValidationMarker,
      appendStringMarker, Value.asString, hs, String.ext_iff]
  · intro hx
    cases x <;>
      simp_all [buildKubebuilderMarkers, oneValidation, appendValidationMarker,
        appendStringMarker, Value.asString]
  · intro hx
    subst hx
    simp [buildKubebuilderMarkers, oneValidation, appendValidationMarker, String.ext_iff]
  · intro hx
    cases x with
    | bool b =>
      cases b with
      | true => exact absurd rfl hx
      | false => simp [buildKubebuilderMarkers, oneValidation, appendValidationMarker]
    | _ => simp [buildKubebuilderMarkers, oneValidation, appendValidationMarker]
  · simp [buildKubebuilderMarkers, oneValidation, appendValidationMarker, String.ext_iff]
  · simp [buildKubebuilderMarkers, oneValidation, appendValidationMarker, String.ext_iff]
  · intro k hk
    simp only [recognizedKinds, List.mem_cons, List.mem_singleton, List.not_mem_nil, or_false,
      not_or] at hk
    simp only [buildKubebuilderMarkers, oneValidation, List.foldl_cons, List.foldl_nil]
    unfold appendValidationMarker
    split
    all_goals first
      | rfl
      | (rename_i h; exact absurd h (by simp [hk]))

/-- Witness of C2 at the value `"3"`, a non-empty string: the kind `minLength`
gives the line `// +kubebuilder:validation:MinLength=3`. -/
theorem buildKubebuilderMarkers_single_witness :
    Value.str "3" = Value.str "3" ∧ "3" ≠ "" ∧
    buildKubebuilderMarkers (oneValidation "size" "string" "minLength" (.str "3"))
      = ["// +kubebuilder:validation:MinLength=3"] :=
  ⟨rfl, by decide,
    ((buildKubebuilderMarkers_single "size" "string" (.str "3")).1
      ("minLength", "MinLength") (by decide)).2.1 "3" rfl (by decide)⟩

/-- C3, as stated, fails: the list `["a", 1]` holds an element that is not a
string, and the property still gets the line with the string element. -/
theorem buildKubebuilderMarkers_enum_mixed_list :
    (Value.number 1).asString = none ∧
    buildKubebuilderMarkers
        (oneValidation "color" "string" "enum" (.list [.str "a", .number 1]))
      = ["// +kubebuilder:validation:Enum=a"] ∧
    buildKubebuilderMarkers
        (oneValidation "color" "string" "enum" (.list [.str "a", .number 1])) ≠ [] := by
  refine ⟨rfl, ?_, ?_⟩ <;> decide

/-- C3, amended: a property with exactly one validation of kind `enum` and
value `x` gets the one line `// +kubebuilder:validation:Enum=` followed by the
string elements of `x` joined with `,` when `x` is a list that holds at least
one string (the elements that are not strings are skipped), the same line over
all elements when `x` is a non-empty `[]string`, and no line for every other
value: an empty list, a list without any string, a value that is not a list.
In particular a non-empty list of strings gets the line over all its
elements. -/
theorem buildKubebuilderMarkers_enum (name typ : String) (x : Value) :
    (∀ vals, x = .list vals → vals.filterMap Value.asString ≠ [] →
      buildKubebuilderMarkers (oneValidation name typ "enum" x)
        = ["// +kubebuilder:validation:Enum="
            ++ strings.Join (vals.filterMap Value.asString) ","]) ∧
    (∀ vals, x = .list vals → vals.filterMap Value.asString = [] →
      buildKubebuilderMarkers (oneValidation name typ "enum" x) = []) ∧
    (∀ ss, ss ≠ [] → x = .list (ss.map Value.str) →
      buildKubebuilderMarkers (oneValidation name typ "enum" x)
        = ["// +kubebuilder:validation:Enum=" ++ strings.Join ss ","]) ∧
    (∀ ss, ss ≠ [] → x = .strings ss →
      buildKubebuilderMarkers (oneValidation name typ "enum" x)
        = ["// +kubebuilder:validation:Enum=" ++ strings.Join ss ","]) ∧
    (x = .strings [] → buildKubebuilderMarkers (oneValidation name typ "enum" x) = []) ∧
    ((∀ vals, x ≠ .list vals) → (∀ ss, x ≠ .strings ss) →
      buildKubebuilderMarkers (oneValidation name typ "enum" x) = []) := by
  have key : ∀ vals : List Value, vals.filterMap Value.asString ≠ [] →
      buildKubebuilderMarkers (oneValidation name typ "enum" (.list vals))
        = ["// +kubebuilder:validation:Enum="
            ++ strings.Join (vals.filterMap Value.asString) ","] := by
    intro vals hne
    have hlen : 0 < (vals.filterMap Value.asString).length := List.length_pos.mpr hne
    have hvals : 0 < vals.length :=
      Nat.lt_of_lt_of_le hlen (List.length_filterMap_le _ _)
    simp [buildKubebuilderMarkers, oneValidation, appendValidationMarker, hlen, hvals,
      String.ext_iff]
  refine ⟨?_, ?_, ?_, ?_, ?_, ?_⟩
  · intro vals hx hne
    subst hx
    exact key vals hne
  · intro vals hx hnil
    subst hx
    simp [buildKubebuilderMarkers, oneValidation, appendValidationMarker, hnil]
  · intro ss hss hx
    subst hx
    have hmap : (ss.map Value.str).filterMap Value.asString = ss := by
      induction ss with
      | nil => rfl
      | cons a rest ih =>
        cases rest with
        | nil => rfl
        | cons b rest => simpa [Value.asString] using ih (by simp)
    have := key (ss.map Value.str) (by rw [hmap]; exact hss)
    rwa [hmap] at this
  · intro ss hss hx
    subst hx
    have hlen : 0 < ss.length := List.length_pos.mpr hss
    simp [buildKubebuilderMarkers, oneValidation, appendValidationMarker, hlen, String.ext_iff]
  · intro hx
    subst hx
    simp [buildKubebuilderMarkers, oneValidation, appendValidationMarker]
  · intro hl hs
    cases x <;>
      simp_all [buildKubebuilderMarkers, oneValidation, appendValidationMarker]

/-- Witness of C3 amended at the list `["red", 7, "blue"]`: the line holds the
two string elements. -/
theorem buildKubebuilderMarkers_enum_witness :
    [Value.str "red", Value.number 7, Value.str "blue"].filterMap Value.asString ≠ [] ∧
    buildKubebuilderMarkers
        (oneValidation "color" "string" "enum" (.list [.str "red", .number 7, .str "blue"]))
      = ["// +kubebuilder:validation:Enum=red,blue"] :=
  ⟨by decide,
    (buildKubebuilderMarkers_enum "color" "string"
      (.list [.str "red", .number 7, .str "blue"])).1 _ rfl (by decide)⟩

/-- C4: the markers of a property whose validations are `a` followed by `b`
are the markers for `a` followed by the markers for `b`. -/
theorem buildKubebuilderMarkers_append (name typ : String) (a b : List Validation) :
    buildKubebuilderMarkers { Name := name, Typ := typ, Validations := a ++ b }
      = buildKubebuilderMarkers { Name := name, Typ := typ, Validations := a }
        ++ buildKubebuilderMarkers { Name := name, Typ := typ, Validations := b } := by
  simp only [buildKubebuilderMarkers, List.foldl_append]
  rw [foldl_appendValidationMarker, List.map_append]

/-! ## Type mapping -/

/-- C5: `GoTypeForProperty` follows the fixed table on the six schema types and
gives `interface{}` on every other string, the empty string and `String`
included. -/
theorem GoTypeForProperty_table :
    GoTypeForProperty "string" = "string" ∧
    GoTypeForProperty "integer" = "int" ∧
    GoTypeForProperty "number" = "float64" ∧
    GoTypeForProperty "boolean" = "bool" ∧
    GoTypeForProperty "array" = "[]interface\x7b\x7d" ∧
    GoTypeForProperty "object" = "map[string]interface\x7b\x7d" ∧
    GoTypeForProperty "" = "interface\x7b\x7d" ∧
    GoTypeForProperty "String" = "interface\x7b\x7d" ∧
    (∀ t, t ∉ ["string", "integer", "number", "boolean", "array", "object"] →
      GoTypeForProperty t = "interface\x7b\x7d") := by
  refine ⟨by decide, by decide, by decide, by decide, by decide, by decide, by decide,
    by decide, ?_⟩
  intro t ht
  simp only [List.mem_cons, List.mem_singleton, List.not_mem_nil, or_false, not_or] at ht
  unfold GoTypeForProperty
  split <;> simp_all

/-- Witness of C5 at `"Integer"`, which is none of the six schema types. -/
theorem GoTypeForProperty_table_witness :
    "Integer" ∉ ["string", "integer", "number", "boolean", "array", "object"] ∧
    GoTypeForProperty "Integer" = "interface\x7b\x7d" :=
  ⟨by decide, GoTypeForProperty_table.2.2.2.2.2.2.2.2 "Integer" (by decide)⟩

/-! ## Grouping mode -/

theorem hasMultipleGroups_loop_iff (firstGroup : String) (crds : List CRD) :
    hasMultipleGroups.loop firstGroup crds = true ↔ ∃ c ∈ crds, c.Group ≠ firstGroup := by
  induction crds with
  | nil => simp [hasMultipleGroups.loop]
  | cons c rest ih =>
    by_cases h : c.Group = firstGroup
    · simp [hasMultipleGroups.loop, h, ih]
    · simp [hasMultipleGroups.loop, h]

theorem hasMultipleGroups_iff (crds : List CRD) :
    hasMultipleGroups crds = true ↔ ∃ a ∈ crds, ∃ b ∈ crds, a.Group ≠ b.Group := by
  match crds with
  | [] => simp [hasMultipleGroups]
  | [a] => simp [hasMultipleGroups]
  | first :: second :: rest =>
    simp only [hasMultipleGroups]
    rw [hasMultipleGroups_loop_iff]
    constructor
    · rintro ⟨c, hc, hne⟩
      exact ⟨c, List.mem_cons_of_mem _ hc, first, List.mem_cons_self _ _, hne⟩
    · rintro ⟨a, ha, b, hb, hne⟩
      by_cases h : a.Group = first.Group
      · have hbne : b.Group ≠ first.Group := fun hb' => hne (h.trans hb'.symm)
        rcases List.mem_cons.mp hb with rfl | hb'
        · exact absurd rfl hbne
        · exact ⟨b, hb', hbne⟩
      · rcases List.mem_cons.mp ha with rfl | ha'
        · exact absurd rfl h
        · exact ⟨a, ha', h⟩

/-- C7: `hasMultipleGroups` is true exactly when two resources of the list
have different groups, that is when the list holds more than one distinct
group; the result is the same for every reordering of the list; two resources
of one group give `false`, two resources of different groups give `true` in
both orders. -/
theorem hasMultipleGroups_distinct (crds : List CRD) :
    (hasMultipleGroups crds = true ↔ ∃ a ∈ crds, ∃ b ∈ crds, a.Group ≠ b.Group) ∧
    (hasMultipleGroups crds = true ↔ 1 < (crds.map CRD.Group).toFinset.card) ∧
    (∀ crds', crds.Perm crds' → hasMultipleGroups crds' = hasMultipleGroups crds) ∧
    (∀ a b : CRD, a.Group = b.Group → hasMultipleGroups [a, b] = false) ∧
    (∀ a b : CRD, a.Group ≠ b.Group →
      hasMultipleGroups [a, b] = true ∧ hasMultipleGroups [b, a] = true) := by
  refine ⟨hasMultipleGroups_iff crds, ?_, ?_, ?_, ?_⟩
  · rw [hasMultipleGroups_iff, Finset.one_lt_card]
    constructor
    · rintro ⟨a, ha, b, hb, hne⟩
      exact ⟨a.Group, by simpa using ⟨a, ha, rfl⟩, b.Group, by simpa using ⟨b, hb, rfl⟩, hne⟩
    · rintro ⟨g, hg, g', hg', hne⟩
      simp only [List.mem_toFinset, List.mem_map] at hg hg'
      obtain ⟨a, ha, rfl⟩ := hg
      obtain ⟨b, hb, rfl⟩ := hg'
      exact ⟨a, ha, b, hb, hne⟩
  · intro crds' hperm
    rw [Bool.eq_iff_iff, hasMultipleGroups_iff, hasMultipleGroups_iff]
    constructor
    · rintro ⟨a, ha, b, hb, hne⟩
      exact ⟨a, hperm.mem_iff.mpr ha, b, hperm.mem_iff.mpr hb, hne⟩
    · rintro ⟨a, ha, b, hb, hne⟩
      exact ⟨a, hperm.mem_iff.mp ha, b, hperm.mem_iff.mp hb, hne⟩
  · intro a b h
    simp [hasMultipleGroups, hasMultipleGroups.loop, h]
  · intro a b h
    simp [hasMultipleGroups, hasMultipleGroups.loop, h, Ne.symm h]

/-- Witness of C7 on a resource of group `apps` and one of group `batch`. -/
theorem hasMultipleGroups_distinct_witness :
    ("apps" : String) ≠ "batch" ∧
    hasMultipleGroups
      [{ Group := "apps", Version := "v1", Kind := "Widget", Plural := "", Controller := true,
         Status := false, RBAC := [], Properties := [], Webhooks := [] },
       { Group := "batch", Version := "v1", Kind := "Task", Plural := "", Controller := true,
         Status := false, RBAC := [], Properties := [], Webhooks := [] }] = true :=
  ⟨by decide,
    ((hasMultipleGroups_distinct []).2.2.2.2
      { Group := "apps", Version := "v1", Kind := "Widget", Plural := "", Controller := true,
        Status := false, RBAC := [], Properties := [], Webhooks := [] }
      { Group := "batch", Version := "v1", Kind := "Task", Plural := "", Controller := true,
        Status := false, RBAC := [], Properties := [], Webhooks := [] }
      (by decide)).1⟩

/-! ## RBAC markers -/

theorem generateRBACMarkers_loop_length (markers : List String) (rbac : List RBACPermission) :
    (generateRBACMarkers.loop markers rbac).length
      = markers.length + (rbac.filter (fun p => !p.isBlank)).length := by
  induction rbac generalizing markers with
  | nil => simp [generateRBACMarkers.loop]
  | cons p rest ih =>
    by_cases hb : p.Group ≠ "" ∨ p.Resources ≠ "" ∨ p.Verbs ≠ ""
    · have hblank : p.isBlank = false := by
        simp only [RBACPermission.isBlank, Bool.and_eq_false_iff, beq_eq_false_iff_ne]
        tauto
      rw [generateRBACMarkers.loop, if_pos hb, ih]
      simp [List.filter_cons, hblank]
      omega
    · have hblank : p.isBlank = true := by
        simp only [RBACPermission.isBlank, Bool.and_eq_true, beq_iff_eq]
        simp only [not_or, not_not] at hb
        simpa [and_assoc] using hb
      rw [generateRBACMarkers.loop, if_neg hb, ih]
      simp [List.filter_cons, hblank]

/-- C9, as stated, fails: a user permission whose group, resources and verbs
are all empty adds no line, so one permission can give 3 lines and not 4. -/
theorem generateRBACMarkers_blank_permission :
    (generateRBACMarkers
      [{ Group := "", Resources := "", Verbs := "", Preset := "admin" }] "apps").length = 3 ∧
    (generateRBACMarkers
      [{ Group := "", Resources := "", Verbs := "", Preset := "admin" }] "apps").length
      ≠ 3 + [({ Group := "", Resources := "", Verbs := "", Preset := "admin" } :
          RBACPermission)].length := by
  constructor <;> decide

/-- C9, amended: `generateRBACMarkers` returns 3 lines plus one line for each
user permission that has a non-empty group, resources or verbs: 3 for the empty
list, and `3 + len(permissions)` when no permission has all three empty. -/
theorem generateRBACMarkers_length (rbac : List RBACPermission) (crdGroup : String) :
    (generateRBACMarkers rbac crdGroup).length
      = 3 + (rbac.filter (fun p => !p.isBlank)).length ∧
    (generateRBACMarkers [] crdGroup).length = 3 ∧
    ((∀ p ∈ rbac, p.Group ≠ "" ∨ p.Resources ≠ "" ∨ p.Verbs ≠ "") →
      (generateRBACMarkers rbac crdGroup).length = 3 + rbac.length) := by
  have hlen : ∀ l : List RBACPermission, (generateRBACMarkers l crdGroup).length
      = 3 + (l.filter (fun p => !p.isBlank)).length := by
    intro l
    simp only [generateRBACMarkers]
    rw [generateRBACMarkers_loop_length]
    simp
  refine ⟨hlen rbac, by rw [hlen]; rfl, ?_⟩
  intro hall
  rw [hlen, List.filter_eq_self.mpr]
  intro p hp
  have := hall p hp
  simp only [RBACPermission.isBlank, Bool.not_eq_true', Bool.and_eq_false_iff,
    beq_eq_false_iff_ne]
  tauto

/-- Witness of C9 amended on two user permissions, the second with an empty
group. -/
theorem generateRBACMarkers_length_witness :
    (∀ p ∈ [({ Group := "apps", Resources := "deployments", Verbs := "get;list", Preset := "" } :
              RBACPermission),
            { Group := "", Resources := "pods", Verbs := "get", Preset := "" }],
        p.Group ≠ "" ∨ p.Resources ≠ "" ∨ p.Verbs ≠ "") ∧
    (generateRBACMarkers
      [{ Group := "apps", Resources := "deployments", Verbs := "get;list", Preset := "" },
       { Group := "", Resources := "pods", Verbs := "get", Preset := "" }] "apps").length
      = 3 + 2 :=
  ⟨by decide,
    (generateRBACMarkers_length
      [{ Group := "apps", Resources := "deployments", Verbs := "get;list", Preset := "" },
       { Group := "", Resources := "pods", Verbs := "get", Preset := "" }] "apps").2.2
      (by decide)⟩

/-- C10 on the code: for the scenario resource of group `apps`, kind `Widget`
and plural `widgets`, with a controller file that declares `Reconcile`, the
three lines that `UpdateControllerRBAC` writes above `Reconcile` name the
resource `appss`, the lower-cased group followed by `s`, and not `widgets`. -/
theorem UpdateControllerRBAC_resources_from_group :
    (match (UpdateControllerRBAC
        (fun p => if p = "/tmp/sdk-1/internal/controller/widget_controller.go"
          then .parsed (.other [.funcDecl "Reconcile" [] []]) else .absent)
        "/tmp/sdk-1"
        [scenarioWidget]).2 "/tmp/sdk-1/internal/controller/widget_controller.go" with
      | .parsed tree => Node.funcDecs "Reconcile" tree
      | _ => [])
      = [["// +kubebuilder:rbac:groups=apps,resources=appss,verbs=get;list;watch;create;update;patch;delete",
          "// +kubebuilder:rbac:groups=apps,resources=appss/status,verbs=get;update;patch",
          "// +kubebuilder:rbac:groups=apps,resources=appss/finalizers,verbs=update"]] ∧
    (generateRBACMarkers scenarioWidget.RBAC scenarioWidget.Group).take 3
      ≠ ["// +kubebuilder:rbac:groups=apps,resources=widgets,verbs=get;list;watch;create;update;patch;delete",
         "// +kubebuilder:rbac:groups=apps,resources=widgets/status,verbs=get;update;patch",
         "// +kubebuilder:rbac:groups=apps,resources=widgets/finalizers,verbs=update"] := by
  constructor
  · decide
  · decide

/-! ## Paths -/

theorem strings_Join_data (l : List String) (sep : String) :
    (strings.Join l sep).data = List.intercalate sep.data (l.map String.data) := by
  induction l with
  | nil => rfl
  | cons a rest ih =>
    cases rest with
    | nil => simp [strings.Join, List.intercalate]
    | cons b rest =>
      rw [strings.Join, String.data_append, String.data_append, ih]
      simp [List.intercalate]

theorem intercalate_append_of_ne_nil (sep : List Char) (a b : List (List Char))
    (ha : a ≠ []) (hb : b ≠ []) :
    List.intercalate sep (a ++ b) = List.intercalate sep a ++ sep ++ List.intercalate sep b := by
  induction a with
  | nil => exact absurd rfl ha
  | cons x rest ih =>
    cases rest with
    | nil =>
      cases b with
      | nil => exact absurd rfl hb
      | cons y b => simp [List.intercalate]
    | cons z rest =>
      have := ih (by simp)
      simp only [List.intercalate, List.cons_append, List.intersperse_cons₂, List.flatten_cons,
        List.append_assoc] at this ⊢
      rw [this]

theorem foldl_cleanStep_plain (rooted : Bool) (stack es : List (List Char))
    (hplain : ∀ e ∈ es, e ≠ [] ∧ e ≠ ['.'] ∧ e ≠ ['.', '.']) :
    es.foldl (filepath.cleanStep rooted) stack = stack ++ es := by
  induction es generalizing stack with
  | nil => simp
  | cons e rest ih =>
    obtain ⟨h1, h2, h3⟩ := hplain e (List.mem_cons_self _ _)
    rw [List.foldl_cons, ih _ (fun x hx => hplain x (List.mem_cons_of_mem _ hx))]
    simp [filepath.cleanStep, h1, h2, h3]

theorem cleanChars_rooted (es : List (List Char)) (hne : es ≠ [])
    (hsep : ∀ e ∈ es, '/' ∉ e)
    (hplain : ∀ e ∈ es, e ≠ [] ∧ e ≠ ['.'] ∧ e ≠ ['.', '.']) :
    filepath.cleanChars ('/' :: List.intercalate ['/'] es) = '/' :: List.intercalate ['/'] es := by
  have hpath : '/' :: List.intercalate ['/'] es = List.intercalate ['/'] ([] :: es) := by
    cases es with
    | nil => exact absurd rfl hne
    | cons e rest => simp [List.intercalate]
  have hsplit : ('/' :: List.intercalate ['/'] es).splitOn '/' = [] :: es := by
    rw [hpath]
    apply List.splitOn_intercalate
    · intro l hl
      rcases List.mem_cons.mp hl with rfl | hl
      · simp
      · exact hsep l hl
    · simp
  unfold filepath.cleanChars
  rw [if_neg (by simp)]
  simp only [hsplit, List.head?_cons, beq_self_eq_true, if_true, List.foldl_cons]
  have h0 : filepath.cleanStep true [] [] = [] := by simp [filepath.cleanStep]
  rw [h0, foldl_cleanStep_plain true [] es hplain]
  simp

theorem isPlainElement_data (e : String) (h : isPlainElement e) :
    '/' ∉ e.data ∧ e.data ≠ [] ∧ e.data ≠ ['.'] ∧ e.data ≠ ['.', '.'] := by
  obtain ⟨h1, h2, h3, h4⟩ := h
  refine ⟨h2, ?_, ?_, ?_⟩
  · intro hd; exact h1 (String.ext hd)
  · intro hd; exact h3 (String.ext hd)
  · intro hd; exact h4 (String.ext hd)

/-- Joining a clean rooted path with plain elements appends them. -/
theorem filepath_Join_rooted (elems more : List String) (hne : elems ≠ [])
    (helems : ∀ e ∈ elems, isPlainElement e) (hmore : ∀ e ∈ more, isPlainElement e) :
    filepath.Join (("/" ++ strings.Join elems "/") :: more)
      = "/" ++ strings.Join (elems ++ more) "/" := by
  have hdir : ("/" ++ strings.Join elems "/") ≠ "" := by
    intro h
    have := congrArg String.data h
    simp [String.data_append] at this
  rw [filepath.Join, if_pos hdir]
  apply String.ext
  have hall : ∀ e ∈ (elems ++ more).map String.data,
      '/' ∉ e ∧ e ≠ [] ∧ e ≠ ['.'] ∧ e ≠ ['.', '.'] := by
    intro e he
    obtain ⟨s, hs, rfl⟩ := List.mem_map.mp he
    rcases List.mem_append.mp hs with h | h
    · exact isPlainElement_data s (helems s h)
    · exact isPlainElement_data s (hmore s h)
  have hjoin : (strings.Join (("/" ++ strings.Join elems "/") :: more) "/").data
      = '/' :: List.intercalate ['/'] ((elems ++ more).map String.data) := by
    have hsep : ("/" : String).data = ['/'] := rfl
    rw [strings_Join_data, hsep, List.map_cons, String.data_append, strings_Join_data, hsep]
    cases more with
    | nil => simp [List.intercalate]
    | cons m rest =>
      rw [List.map_append,
        intercalate_append_of_ne_nil _ _ _ (by simpa using hne) (by simp)]
      cases hm : List.map String.data (m :: rest) with
      | nil => simp at hm
      | cons y ys => simp [List.intercalate]
  simp only [filepath.Clean]
  rw [hjoin, cleanChars_rooted _ (by simp [hne]) (fun e he => (hall e he).1)
    (fun e he => (hall e he).2), String.data_append, strings_Join_data]
  rfl

theorem toLower_ne_slash (c : Char) (h : c.isAlphanum = true) : c.toLower ≠ '/' := by
  intro hc
  unfold Char.toLower at hc
  simp only at hc
  split at hc
  · rename_i hr
    obtain ⟨h1, h2⟩ := hr
    generalize c.toNat = n at h1 h2 hc
    interval_cases n <;> exact absurd hc (by decide)
  · subst hc
    exact absurd h (by decide)

theorem isPlainElement_of_isAlphanumeric (s : String) (h : isAlphanumeric s) :
    isPlainElement s := by
  obtain ⟨hne, hall⟩ := h
  refine ⟨hne, ?_, ?_, ?_⟩
  · intro hmem
    exact absurd (hall _ hmem) (by decide)
  · intro hs
    subst hs
    exact absurd (hall '.' (by decide)) (by decide)
  · intro hs
    subst hs
    exact absurd (hall '.' (by decide)) (by decide)

theorem isPlainElement_lower_suffix (kind suffix : String) (h : isAlphanumeric kind)
    (hsuffix : '/' ∉ suffix.data) (hlen : 2 ≤ suffix.length) :
    isPlainElement (strings.ToLower kind ++ suffix) := by
  obtain ⟨hne, hall⟩ := h
  have hlen2 : 3 ≤ (strings.ToLower kind ++ suffix).data.length := by
    have hk : kind.data ≠ [] := fun hd => hne (String.ext hd)
    have : 0 < kind.data.length := List.length_pos.mpr hk
    simp only [String.data_append, strings.ToLower, List.length_append, List.length_map]
    have : suffix.data.length = suffix.length := rfl
    omega
  refine ⟨?_, ?_, ?_, ?_⟩
  · intro hs
    rw [hs] at hlen2
    exact absurd hlen2 (by decide)
  · simp only [String.data_append, strings.ToLower, List.mem_append, List.mem_map, not_or]
    refine ⟨?_, hsuffix⟩
    rintro ⟨c, hc, hlow⟩
    exact toLower_ne_slash c (hall c hc) hlow
  · intro hs
    rw [hs] at hlen2
    exact absurd hlen2 (by decide)
  · intro hs
    rw [hs] at hlen2
    exact absurd hlen2 (by decide)

theorem rooted_append (elems more : List String) (hmore : more ≠ []) (hne : elems ≠ []) :
    "/" ++ strings.Join (elems ++ more) "/"
      = "/" ++ strings.Join elems "/" ++ "/" ++ strings.Join more "/" := by
  apply String.ext
  simp only [String.data_append, strings_Join_data, List.map_append]
  rw [intercalate_append_of_ne_nil _ _ _ (by simpa using hne) (by simpa using hmore)]
  simp

theorem UpdateGoTypesDST_loop_frame (out : Output) (projectDir : String) (mode : Bool)
    (crds : List CRD) (fs : FileSystem) (p : String)
    (hp : ∀ c ∈ crds, p ≠ goFile projectDir mode c) :
    (UpdateGoTypesDST.loop out projectDir mode crds fs).2 p = fs p := by
  induction crds generalizing fs with
  | nil => rfl
  | cons c rest ih =>
    rw [UpdateGoTypesDST.loop]
    split
    · rfl
    · split
      · rfl
      · split
        · rfl
        · rw [ih _ (fun x hx => hp x (List.mem_cons_of_mem _ hx))]
          simp [WriteFile, hp c (List.mem_cons_self _ _)]

theorem UpdateGoTypesDST_loop_parsed (out : Output) (projectDir : String) (mode : Bool)
    (crds : List CRD) (fs : FileSystem)
    (hok : (UpdateGoTypesDST.loop out projectDir mode crds fs).1 = none) :
    (∀ p tree, fs p = .parsed tree →
      ∃ tree', (UpdateGoTypesDST.loop out projectDir mode crds fs).2 p = .parsed tree') ∧
    (∀ c ∈ crds, ∃ tree,
      (UpdateGoTypesDST.loop out projectDir mode crds fs).2 (goFile projectDir mode c)
        = .parsed tree) := by
  induction crds generalizing fs with
  | nil => exact ⟨fun p tree h => ⟨tree, h⟩, fun c hc => absurd hc (List.not_mem_nil _)⟩
  | cons c rest ih =>
    rw [UpdateGoTypesDST.loop] at hok ⊢
    split at hok
    · simp at hok
    · split at hok
      · simp at hok
      · split at hok
        · simp at hok
        · rename_i printed _ _ _
          obtain ⟨hkeep, hrest⟩ := ih _ hok
          refine ⟨?_, ?_⟩
          · intro p tree hfs
            by_cases hp : p = goFile projectDir mode c
            · exact hkeep p printed (by simp [WriteFile, hp])
            · exact hkeep p tree (by simpa [WriteFile, hp] using hfs)
          · intro x hx
            rcases List.mem_cons.mp hx with rfl | hx
            · exact hkeep _ printed (by simp [WriteFile])
            · exact hrest x hx

theorem UpdateControllerRBAC_loop_frame (projectDir : String) (mode : Bool) (crds : List CRD)
    (fs : FileSystem) (p : String) (hp : ∀ c ∈ crds, p ≠ controllerFile projectDir mode c) :
    (UpdateControllerRBAC.loop projectDir mode crds fs).2 p = fs p := by
  induction crds generalizing fs with
  | nil => rfl
  | cons c rest ih =>
    have hrest := fun fs0 => ih fs0 (fun x hx => hp x (List.mem_cons_of_mem _ hx))
    rw [UpdateControllerRBAC.loop]
    split
    · exact hrest fs
    · simp only
      split
      · exact hrest fs
      · split
        · rfl
        · split
          · exact hrest fs
          · rw [hrest]
            simp [WriteFile, hp c (List.mem_cons_self _ _)]

/-- C8: for a project directory that is a clean rooted path and a request whose
resources have non-empty alphanumeric group, version and kind, every resource
of the request has its type file at `<project>/api/<version>/<kind>_types.go`
and its controller file at `<project>/internal/controller/<kind>_controller.go`
when `hasMultipleGroups` of the whole list is false, at
`<project>/api/<group>/<version>/<kind>_types.go` and
`<project>/internal/controller/<group>/<kind>_controller.go` when it is true
(`<kind>` in lower case), and its webhook file at
`<project>/internal/webhook/<version>/<kind>_webhook.go` in both modes.  The
mode is that of the whole list for every resource: `UpdateGoTypesDST` and
`UpdateControllerRBAC` change no file outside these paths, and a run of
`UpdateGoTypesDST` without error leaves a type file at the path of every
resource, whatever the printer and the write do. -/
theorem paths_by_grouping_mode (elems : List String) (crds : List CRD) (crd : CRD)
    (hne : elems ≠ []) (helems : ∀ e ∈ elems, isPlainElement e) (hcrd : crd ∈ crds)
    (hall : ∀ c ∈ crds,
      isAlphanumeric c.Group ∧ isAlphanumeric c.Version ∧ isAlphanumeric c.Kind) :
    (hasMultipleGroups crds = false →
      goFile ("/" ++ strings.Join elems "/") (hasMultipleGroups crds) crd
        = "/" ++ strings.Join elems "/" ++ "/api/" ++ crd.Version ++ "/"
          ++ strings.ToLower crd.Kind ++ "_types.go" ∧
      controllerFile ("/" ++ strings.Join elems "/") (hasMultipleGroups crds) crd
        = "/" ++ strings.Join elems "/" ++ "/internal/controller/"
          ++ strings.ToLower crd.Kind ++ "_controller.go") ∧
    (hasMultipleGroups crds = true →
      goFile ("/" ++ strings.Join elems "/") (hasMultipleGroups crds) crd
        = "/" ++ strings.Join elems "/" ++ "/api/" ++ crd.Group ++ "/" ++ crd.Version ++ "/"
          ++ strings.ToLower crd.Kind ++ "_types.go" ∧
      controllerFile ("/" ++ strings.Join elems "/") (hasMultipleGroups crds) crd
        = "/" ++ strings.Join elems "/" ++ "/internal/controller/" ++ crd.Group ++ "/"
          ++ strings.ToLower crd.Kind ++ "_controller.go") ∧
    webhookFile ("/" ++ strings.Join elems "/") crd
      = "/" ++ strings.Join elems "/" ++ "/internal/webhook/" ++ crd.Version ++ "/"
        ++ strings.ToLower crd.Kind ++ "_webhook.go" ∧
    (∀ (out : Output) (fs : FileSystem) (p : String),
      (∀ c ∈ crds, p ≠ goFile ("/" ++ strings.Join elems "/") (hasMultipleGroups crds) c) →
      (UpdateGoTypesDST out fs ("/" ++ strings.Join elems "/") crds).2 p = fs p) ∧
    (∀ (out : Output) (fs : FileSystem),
      (UpdateGoTypesDST out fs ("/" ++ strings.Join elems "/") crds).1 = none →
      ∃ tree, (UpdateGoTypesDST out fs ("/" ++ strings.Join elems "/") crds).2
        (goFile ("/" ++ strings.Join elems "/") (hasMultipleGroups crds) crd) = .parsed tree) ∧
    (∀ (fs : FileSystem) (p : String),
      (∀ c ∈ crds,
        p ≠ controllerFile ("/" ++ strings.Join elems "/") (hasMultipleGroups crds) c) →
      (UpdateControllerRBAC fs ("/" ++ strings.Join elems "/") crds).2 p = fs p) := by
  obtain ⟨hg, hv, hk⟩ := hall crd hcrd
  have pg := isPlainElement_of_isAlphanumeric _ hg
  have pv := isPlainElement_of_isAlphanumeric _ hv
  have papi : isPlainElement "api" := by
    refine ⟨by decide, by decide, by decide, by decide⟩
  have pint : isPlainElement "internal" := by
    refine ⟨by decide, by decide, by decide, by decide⟩
  have pctl : isPlainElement "controller" := by
    refine ⟨by decide, by decide, by decide, by decide⟩
  have pweb : isPlainElement "webhook" := by
    refine ⟨by decide, by decide, by decide, by decide⟩
  have ptypes := isPlainElement_lower_suffix crd.Kind "_types.go" hk (by decide) (by decide)
  have pcontroller :=
    isPlainElement_lower_suffix crd.Kind "_controller.go" hk (by decide) (by decide)
  have pwebhook := isPlainElement_lower_suffix crd.Kind "_webhook.go" hk (by decide) (by decide)
  have two : ∀ (a b : List String), a ≠ [] → (∀ e ∈ a, isPlainElement e) →
      (∀ e ∈ b, isPlainElement e) → elems ++ a ≠ [] ∧ ∀ e ∈ elems ++ a ++ b, isPlainElement e := by
    intro a b _ ha hb
    refine ⟨by simp [hne], ?_⟩
    intro e he
    rcases List.mem_append.mp he with h | h
    · rcases List.mem_append.mp h with h | h
      · exact helems e h
      · exact ha e h
    · exact hb e h
  refine ⟨?_, ?_, ?_, ?_, ?_, ?_⟩
  · intro hmode
    rw [hmode]
    constructor
    · simp only [goFile, Bool.false_eq_true, if_false]
      rw [filepath_Join_rooted elems ["api", crd.Version] hne helems (by simp [papi, pv]),
        filepath_Join_rooted (elems ++ ["api", crd.Version]) [_] (by simp)
          (by
            intro e he
            rcases List.mem_append.mp he with h | h
            · exact helems e h
            · simp at h; rcases h with rfl | rfl
              · exact papi
              · exact pv)
          (by simp [ptypes]),
        List.append_assoc, rooted_append elems _ (by simp) hne]
      apply String.ext
      simp [strings.Join, String.data_append]
    · simp only [controllerFile, Bool.false_eq_true, if_false]
      rw [filepath_Join_rooted elems ["internal", "controller"] hne helems
          (by simp [pint, pctl]),
        filepath_Join_rooted (elems ++ ["internal", "controller"]) [_] (by simp)
          (by
            intro e he
            rcases List.mem_append.mp he with h | h
            · exact helems e h
            · simp at h; rcases h with rfl | rfl
              · exact pint
              · exact pctl)
          (by simp [pcontroller]),
        List.append_assoc, rooted_append elems _ (by simp) hne]
      apply String.ext
      simp [strings.Join, String.data_append]
  · intro hmode
    rw [hmode]
    constructor
    · simp only [goFile, if_true]
      rw [filepath_Join_rooted elems ["api", crd.Group, crd.Version] hne helems
          (by simp [papi, pg, pv]),
        filepath_Join_rooted (elems ++ ["api", crd.Group, crd.Version]) [_] (by simp)
          (by
            intro e he
            rcases List.mem_append.mp he with h | h
            · exact helems e h
            · simp at h; rcases h with rfl | rfl | rfl
              · exact papi
              · exact pg
              · exact pv)
          (by simp [ptypes]),
        List.append_assoc, rooted_append elems _ (by simp) hne]
      apply String.ext
      simp [strings.Join, String.data_append]
    · simp only [controllerFile, if_true]
      rw [filepath_Join_rooted elems ["internal", "controller", crd.Group] hne helems
          (by simp [pint, pctl, pg]),
        filepath_Join_rooted (elems ++ ["internal", "controller", crd.Group]) [_] (by simp)
          (by
            intro e he
            rcases List.mem_append.mp he with h | h
            · exact helems e h
            · simp at h; rcases h with rfl | rfl | rfl
              · exact pint
              · exact pctl
              · exact pg)
          (by simp [pcontroller]),
        List.append_assoc, rooted_append elems _ (by simp) hne]
      apply String.ext
      simp [strings.Join, String.data_append]
  · simp only [webhookFile]
    rw [filepath_Join_rooted elems _ hne helems (by simp [pint, pweb, pv, pwebhook]),
      rooted_append elems _ (by simp) hne]
    apply String.ext
    simp [strings.Join, String.data_append]
  · intro out fs p hp
    exact UpdateGoTypesDST_loop_frame out _ _ crds fs p hp
  · intro out fs hok
    exact (UpdateGoTypesDST_loop_parsed out _ _ crds fs hok).2 crd hcrd
  · intro fs p hp
    exact UpdateControllerRBAC_loop_frame _ _ crds fs p hp

/-- Witness of C8 for the project directory `/tmp/sdk-1` and resources of the
groups `apps` and `batch`: the type file of the second resource is in the
multi-group layout. -/
theorem paths_by_grouping_mode_witness :
    goFile "/tmp/sdk-1" true
      { Group := "batch", Version := "v1", Kind := "Task", Plural := "", Controller := true,
        Status := false, RBAC := [], Properties := [], Webhooks := [] }
      = "/tmp/sdk-1/api/batch/v1/task_types.go" := by
  have h := (paths_by_grouping_mode ["tmp", "sdk-1"]
    [{ Group := "apps", Version := "v1", Kind := "Widget", Plural := "", Controller := true,
       Status := false, RBAC := [], Properties := [], Webhooks := [] },
     { Group := "batch", Version := "v1", Kind := "Task", Plural := "", Controller := true,
       Status := false, RBAC := [], Properties := [], Webhooks := [] }]
    { Group := "batch", Version := "v1", Kind := "Task", Plural := "", Controller := true,
      Status := false, RBAC := [], Properties := [], Webhooks := [] }
    (by decide)
    (by
      intro e he
      simp only [List.mem_cons, List.mem_singleton, List.not_mem_nil, or_false] at he
      rcases he with rfl | rfl <;> exact ⟨by decide, by decide, by decide, by decide⟩)
    (by simp)
    (by
      intro c hc
      simp only [List.mem_cons, List.mem_singleton, List.not_mem_nil, or_false] at hc
      rcases hc with rfl | rfl <;>
        exact ⟨⟨by decide, by decide⟩, ⟨by decide, by decide⟩, ⟨by decide, by decide⟩⟩)).2.1
    (by decide)
  exact h.1

/-! ## Camel case -/

theorem FieldsFunc_go_eq (f : Char → Bool) (l : List Char) (acc : List (List Char)) :
    strings.FieldsFunc.go f l none acc
      = acc ++ (l.splitOnP f).filter (fun seg => seg ≠ []) ∧
    ∀ cur, cur ≠ [] →
      strings.FieldsFunc.go f l (some cur) acc
        = acc ++ ((l.splitOnP f).modifyHead (fun seg => cur ++ seg)).filter
            (fun seg => seg ≠ []) := by
  induction l generalizing acc with
  | nil =>
    refine ⟨by simp [strings.FieldsFunc.go], ?_⟩
    intro cur hcur
    simp [strings.FieldsFunc.go, hcur]
  | cons r rest ih =>
    by_cases hf : f r = true
    · refine ⟨?_, ?_⟩
      · rw [strings.FieldsFunc.go, if_pos hf, (ih acc).1, List.splitOnP_cons, if_pos hf]
        simp
      · intro cur hcur
        rw [strings.FieldsFunc.go, if_pos hf, (ih (acc ++ [cur])).1, List.splitOnP_cons,
          if_pos hf]
        simp [hcur]
    · refine ⟨?_, ?_⟩
      · rw [strings.FieldsFunc.go, if_neg hf, (ih acc).2 [r] (by simp), List.splitOnP_cons,
          if_neg hf]
        rfl
      · intro cur hcur
        have hcomp : (fun seg => cur ++ [r] ++ seg)
            = ((fun seg => cur ++ seg) ∘ List.cons r) := by
          funext seg
          simp
        rw [strings.FieldsFunc.go, if_neg hf, (ih acc).2 (cur ++ [r]) (by simp),
          List.splitOnP_cons, if_neg hf, List.modifyHead_modifyHead, hcomp]

theorem mem_of_mem_splitOnP (f : Char → Bool) (l seg : List Char) (r : Char)
    (hseg : seg ∈ l.splitOnP f) (hr : r ∈ seg) : r ∈ l := by
  induction l generalizing seg with
  | nil =>
    simp at hseg
    subst hseg
    exact absurd hr (List.not_mem_nil _)
  | cons x rest ih =>
    rw [List.splitOnP_cons] at hseg
    split at hseg
    · rcases List.mem_cons.mp hseg with rfl | h
      · exact absurd hr (List.not_mem_nil _)
      · exact List.mem_cons_of_mem _ (ih seg h hr)
    · cases hsplit : rest.splitOnP f with
      | nil => exact absurd hsplit (List.splitOnP_ne_nil _ _)
      | cons first others =>
        rw [hsplit] at hseg ih
        simp only [List.modifyHead_cons] at hseg
        rcases List.mem_cons.mp hseg with rfl | h
        · rcases List.mem_cons.mp hr with rfl | hr'
          · exact List.mem_cons_self _ _
          · exact List.mem_cons_of_mem _ (ih first (List.mem_cons_self _ _) hr')
        · exact List.mem_cons_of_mem _ (ih seg (List.mem_cons_of_mem _ h) hr)

theorem intercalate_nil_sep (l : List (List Char)) : List.intercalate [] l = l.flatten := by
  induction l with
  | nil => rfl
  | cons a rest ih =>
    cases rest with
    | nil => simp [List.intercalate]
    | cons b rest =>
      simp only [List.intercalate, List.intersperse_cons₂, List.flatten_cons,
        List.nil_append] at ih ⊢
      rw [ih]

theorem upperFirst_eq_capitalize (seg : List Char) (h : ∀ r ∈ seg, r.toNat < 128) :
    upperFirst seg = capitalize seg := by
  cases seg with
  | nil => rfl
  | cons r rest => simp [upperFirst, capitalize, h r (List.mem_cons_self _ _)]

/-- C6: on a name made of ASCII characters, `ToCamelCase` is the concatenation,
in order, of the non-empty maximal segments of the name between the
separators `_` and `-`, each with its first character in upper case and its
other characters unchanged; `replica_count` gives `ReplicaCount`. -/
theorem ToCamelCase_segments (name : String) (hascii : isASCII name) :
    ToCamelCase name = camelCaseOfSegments name ∧
    (ToCamelCase name).data
      = (((name.data.splitOnP isSeparator).filter (fun seg => seg ≠ [])).map
          capitalize).flatten ∧
    ToCamelCase "replica_count" = "ReplicaCount" := by
  have hdata : (ToCamelCase name).data
      = (((name.data.splitOnP isSeparator).filter (fun seg => seg ≠ [])).map
          capitalize).flatten := by
    have hgo := (FieldsFunc_go_eq isSeparator name.data []).1
    have hfun : (fun r : Char => r == '_' || r == '-') = isSeparator := rfl
    simp only [ToCamelCase, strings.FieldsFunc, hfun, hgo, List.nil_append]
    rw [strings_Join_data]
    have hsep : ("" : String).data = [] := rfl
    rw [hsep, intercalate_nil_sep]
    congr 1
    simp only [List.map_map]
    apply List.map_congr_left
    intro seg hseg
    obtain ⟨hmem, hne⟩ := List.mem_filter.mp hseg
    have hne' : seg ≠ [] := by simpa using hne
    have hlen : 0 < (String.mk seg).length := List.length_pos.mpr hne'
    have hall : ∀ r ∈ seg, r.toNat < 128 :=
      fun r hr => hascii r (mem_of_mem_splitOnP _ _ _ _ hmem hr)
    simp only [Function.comp, hlen, gt_iff_lt, if_true]
    exact upperFirst_eq_capitalize seg hall
  refine ⟨?_, hdata, by decide⟩
  apply String.ext
  rw [hdata]
  rfl

/-- Witness of C6 on the ASCII name `max-retry_count`. -/
theorem ToCamelCase_segments_witness :
    isASCII "max-retry_count" ∧ ToCamelCase "max-retry_count" = "MaxRetryCount" :=
  ⟨by unfold isASCII; decide,
    (ToCamelCase_segments "max-retry_count" (by unfold isASCII; decide)).1.trans (by decide)⟩

/-! ## Field lists -/

theorem foldl_append_singleton {α β : Type} (g : α → β) (l : List α) (init : List β) :
    l.foldl (fun acc a => acc ++ [g a]) init = init ++ l.map g := by
  induction l generalizing init with
  | nil => simp
  | cons a rest ih => simp [ih]

theorem kind_ne_kindSpec (kind : String) : kind ++ "Spec" ≠ kind := by
  intro h
  have := congrArg String.length h
  simp [String.length_append] at this
  exact absurd this (by decide)

mutual
theorem typeSpecs_apply (crd : CRD) :
    ∀ n : Node, Node.typeSpecs (UpdateGoTypesDST.apply crd n)
      = (Node.typeSpecs n).map (UpdateGoTypesDST.visit crd)
  | .typeSpec ts => by simp [UpdateGoTypesDST.apply, Node.typeSpecs]
  | .genDecl lparen decs specs => by
    simp [UpdateGoTypesDST.apply, Node.typeSpecs, typeSpecsList_apply crd specs]
  | .funcDecl name decs body => by
    simp [UpdateGoTypesDST.apply, Node.typeSpecs, typeSpecsList_apply crd body]
  | .other children => by
    simp [UpdateGoTypesDST.apply, Node.typeSpecs, typeSpecsList_apply crd children]
theorem typeSpecsList_apply (crd : CRD) :
    ∀ l : List Node, Node.typeSpecsList (UpdateGoTypesDST.applyList crd l)
      = (Node.typeSpecsList l).map (UpdateGoTypesDST.visit crd)
  | [] => by simp [UpdateGoTypesDST.applyList, Node.typeSpecsList]
  | n :: ns => by
    simp [UpdateGoTypesDST.applyList, Node.typeSpecsList, typeSpecs_apply crd n,
      typeSpecsList_apply crd ns]
end

/-- C1, a defect of the code: the field that `UpdateGoTypesDST` builds for a
property has the validation markers as its leading decorations and no line
break before it, because `Decs.Before` is left at its zero value.  On the
scenario resource `Widget` and its scaffolded type file, the struct
`WidgetSpec` gets the one field `ReplicaCount` of type `int` with the tag
`json:"replica_count,omitempty"`, whose marker
`// +kubebuilder:validation:Minimum=1` therefore continues the line of the
opening brace instead of standing on a line above the field.  For every
resource, the struct named `<Kind>Spec` gets, whatever its previous fields, one
such field per property, in the order of the properties. -/
theorem UpdateGoTypesDST_fields_without_line_break :
    (Node.typeSpecs (UpdateGoTypesDST.apply scenarioWidget scenarioTypes)).filter
        (fun t => t.Name == "WidgetSpec")
      = [{ Name := "WidgetSpec", Decs := [],
           Typ := .StructType
             [{ Names := ["ReplicaCount"], Typ := .Ident "int",
                Tag := some "`json:\"replica_count,omitempty\"`",
                Before := SpaceType.None,
                Decs := ["// +kubebuilder:validation:Minimum=1"] }] }] ∧
    (∀ p : Property,
      (newField p).Before = SpaceType.None ∧ (newField p).Decs = buildKubebuilderMarkers p) ∧
    (∀ (crd : CRD) (decs : List String) (previous : List Field),
      UpdateGoTypesDST.visit crd
          { Name := crd.Kind ++ "Spec", Decs := decs, Typ := .StructType previous }
        = { Name := crd.Kind ++ "Spec", Decs := decs,
            Typ := .StructType (crd.Properties.map newField) }) := by
  refine ⟨by decide, ?_, ?_⟩
  · intro p
    refine ⟨rfl, ?_⟩
    simp only [newField]
    split
    · rfl
    · rename_i h
      exact (List.length_eq_zero.mp (by omega)).symm
  · intro crd decs previous
    simp [UpdateGoTypesDST.visit, kind_ne_kindSpec, foldl_append_singleton]

/-! ## User permissions -/

theorem generateRBACMarkers_loop_map (markers : List String) (rbac : List RBACPermission)
    (hall : ∀ p ∈ rbac, p.Group ≠ "" ∨ p.Resources ≠ "" ∨ p.Verbs ≠ "") :
    generateRBACMarkers.loop markers rbac
      = markers ++ rbac.map (fun p =>
          "// +kubebuilder:rbac:groups=" ++ (if p.Group = "" then "\"\"" else p.Group)
            ++ ",resources=" ++ p.Resources ++ ",verbs=" ++ p.Verbs) := by
  induction rbac generalizing markers with
  | nil => simp [generateRBACMarkers.loop]
  | cons p rest ih =>
    rw [generateRBACMarkers.loop, if_pos (hall p (List.mem_cons_self _ _)),
      ih _ (fun q hq => hall q (List.mem_cons_of_mem _ hq))]
    simp

/-- C11: when every user permission has a non-empty group, resources or verbs,
the lines of `generateRBACMarkers` after the first three are, in input order,
one line `// +kubebuilder:rbac:groups=<g>,resources=<resources>,verbs=<verbs>`
per permission, where `<g>` is the text `""` for an empty group and the group
otherwise; there are as many lines as permissions, so equal permissions are all
emitted. -/
theorem generateRBACMarkers_user_lines (rbac : List RBACPermission) (crdGroup : String)
    (hall : ∀ p ∈ rbac, p.Group ≠ "" ∨ p.Resources ≠ "" ∨ p.Verbs ≠ "") :
    (generateRBACMarkers rbac crdGroup).drop 3
      = rbac.map (fun p =>
          "// +kubebuilder:rbac:groups=" ++ (if p.Group = "" then "\"\"" else p.Group)
            ++ ",resources=" ++ p.Resources ++ ",verbs=" ++ p.Verbs) ∧
    ((generateRBACMarkers rbac crdGroup).drop 3).length = rbac.length := by
  have h : (generateRBACMarkers rbac crdGroup).drop 3
      = rbac.map (fun p =>
          "// +kubebuilder:rbac:groups=" ++ (if p.Group = "" then "\"\"" else p.Group)
            ++ ",resources=" ++ p.Resources ++ ",verbs=" ++ p.Verbs) := by
    simp only [generateRBACMarkers]
    rw [generateRBACMarkers_loop_map _ _ hall]
    simp
  exact ⟨h, by rw [h, List.length_map]⟩

/-- Witness of C11 on a permission of the core group given twice and one of the
group `apps`. -/
theorem generateRBACMarkers_user_lines_witness :
    (generateRBACMarkers
      [{ Group := "", Resources := "pods", Verbs := "get;list", Preset := "" },
       { Group := "", Resources := "pods", Verbs := "get;list", Preset := "" },
       { Group := "apps", Resources := "deployments", Verbs := "get", Preset := "" }]
      "apps").drop 3
      = ["// +kubebuilder:rbac:groups=\"\",resources=pods,verbs=get;list",
         "// +kubebuilder:rbac:groups=\"\",resources=pods,verbs=get;list",
         "// +kubebuilder:rbac:groups=apps,resources=deployments,verbs=get"] :=
  (generateRBACMarkers_user_lines
    [{ Group := "", Resources := "pods", Verbs := "get;list", Preset := "" },
     { Group := "", Resources := "pods", Verbs := "get;list", Preset := "" },
     { Group := "apps", Resources := "deployments", Verbs := "get", Preset := "" }]
    "apps" (by decide)).1.trans (by decide)

/-! ## Status marker and absent declarations -/

theorem visit_typ_of_no_spec (crd : CRD) (ts : TypeSpec)
    (h : ∀ fields, ¬(ts.Name = crd.Kind ++ "Spec" ∧ ts.Typ = .StructType fields)) :
    (UpdateGoTypesDST.visit crd ts).Typ = ts.Typ := by
  unfold UpdateGoTypesDST.visit
  split
  · split <;> rfl
  · split
    · rfl
    · rename_i hname
      split
      · rename_i fields hty
        exact absurd ⟨not_not.mp hname, hty⟩ (h fields)
      · rfl

theorem UpdateGoTypesDST_loop_ok (out : Output) (projectDir : String) (mode : Bool)
    (crds : List CRD) (fs : FileSystem)
    (hparsed : ∀ c ∈ crds, ∃ tree, fs (goFile projectDir mode c) = .parsed tree)
    (hprint : ∀ tree, ∃ printed, out.Fprint tree = .ok printed)
    (hwrite : ∀ path, out.WriteFile path = none) :
    (UpdateGoTypesDST.loop out projectDir mode crds fs).1 = none := by
  induction crds generalizing fs with
  | nil => rfl
  | cons c rest ih =>
    obtain ⟨tree, htree⟩ := hparsed c (List.mem_cons_self _ _)
    obtain ⟨printed, hprinted⟩ := hprint (UpdateGoTypesDST.apply c tree)
    rw [UpdateGoTypesDST.loop]
    simp only [decorator.ParseFile, htree, hprinted, hwrite]
    apply ih
    intro x hx
    obtain ⟨t, ht⟩ := hparsed x (List.mem_cons_of_mem _ hx)
    by_cases hp : goFile projectDir mode x = goFile projectDir mode c
    · exact ⟨printed, by simp [WriteFile, hp]⟩
    · exact ⟨t, by simpa [WriteFile, hp] using ht⟩

theorem UpdateGoTypesDST_loop_error (out : Output) (projectDir : String) (mode : Bool)
    (crds : List CRD) (fs : FileSystem) (e : String)
    (he : (UpdateGoTypesDST.loop out projectDir mode crds fs).1 = some e) :
    ∃ c ∈ crds, ∃ cause : String,
      e = "parse " ++ goFile projectDir mode c ++ ": " ++ cause ∨
      e = "print " ++ goFile projectDir mode c ++ ": " ++ cause ∨
      e = "write " ++ goFile projectDir mode c ++ ": " ++ cause := by
  induction crds generalizing fs with
  | nil => simp [UpdateGoTypesDST.loop] at he
  | cons c rest ih =>
    rw [UpdateGoTypesDST.loop] at he
    split at he
    · rename_i err _
      exact ⟨c, List.mem_cons_self _ _, err, Or.inl (Option.some.inj he).symm⟩
    · split at he
      · rename_i err _
        exact ⟨c, List.mem_cons_self _ _, err, Or.inr (Or.inl (Option.some.inj he).symm)⟩
      · split at he
        · rename_i err _
          exact ⟨c, List.mem_cons_self _ _, err, Or.inr (Or.inr (Option.some.inj he).symm)⟩
        · obtain ⟨x, hx, cause, hcause⟩ := ih _ he
          exact ⟨x, List.mem_cons_of_mem _ hx, cause, hcause⟩

theorem UpdateGoTypesDST_loop_append (out : Output) (projectDir : String) (mode : Bool)
    (pre post : List CRD) (fs : FileSystem) :
    UpdateGoTypesDST.loop out projectDir mode (pre ++ post) fs
      = if (UpdateGoTypesDST.loop out projectDir mode pre fs).1 = none then
          UpdateGoTypesDST.loop out projectDir mode post
            (UpdateGoTypesDST.loop out projectDir mode pre fs).2
        else UpdateGoTypesDST.loop out projectDir mode pre fs := by
  induction pre generalizing fs with
  | nil => simp [UpdateGoTypesDST.loop]
  | cons c rest ih =>
    rw [List.cons_append, UpdateGoTypesDST.loop, UpdateGoTypesDST.loop]
    split
    · simp
    · split
      · simp
      · split
        · simp
        · exact ih _

theorem UpdateGoTypesDST_loop_written (out : Output) (projectDir : String) (mode : Bool)
    (pre post : List CRD) (crd : CRD) (file : Node) (fs : FileSystem)
    (hother : ∀ c ∈ pre ++ post, goFile projectDir mode c ≠ goFile projectDir mode crd)
    (hfs : fs (goFile projectDir mode crd) = .parsed file)
    (hok : (UpdateGoTypesDST.loop out projectDir mode (pre ++ crd :: post) fs).1 = none) :
    ∃ printed, out.Fprint (UpdateGoTypesDST.apply crd file) = .ok printed ∧
      (UpdateGoTypesDST.loop out projectDir mode (pre ++ crd :: post) fs).2
        (goFile projectDir mode crd) = .parsed printed := by
  have hpre : (UpdateGoTypesDST.loop out projectDir mode pre fs).2 (goFile projectDir mode crd)
      = .parsed file := by
    rw [UpdateGoTypesDST_loop_frame _ _ _ pre _ _
      (fun c hc => (hother c (List.mem_append_left _ hc)).symm)]
    exact hfs
  rw [UpdateGoTypesDST_loop_append] at hok ⊢
  split at hok
  · rename_i hnone
    rw [if_pos hnone]
    rw [UpdateGoTypesDST.loop] at hok ⊢
    simp only [decorator.ParseFile, hpre] at hok ⊢
    split at hok
    · simp at hok
    · rename_i printed hprinted
      split at hok
      · simp at hok
      · rename_i hwrite
        refine ⟨printed, hprinted, ?_⟩
        rw [UpdateGoTypesDST_loop_frame _ _ _ post _ _
          (fun c hc => (hother c (List.mem_append_right _ hc)).symm)]
        simp [WriteFile]
  · rename_i hsome
    exact absurd hok hsome

/-- C12, a defect of the code: the status line goes to the type specification,
not to the declaration.  On the scenario resource, which has status, and the
declaration `type Widget struct{}`, written without parentheses and without
comment lines, and on the same declaration with the comment line
`// +kubebuilder:object:root=true` above the keyword `type`, the walk leaves
the comment lines of the declaration as they were and appends
`// +kubebuilder:subresource:status` to the leading decorations of the type
specification, which were empty and stand between the keyword `type` and the
name `Widget`.  The same holds for every resource with status, whatever the
comment lines and the type of the declaration. -/
theorem UpdateGoTypesDST_status_marker_on_type_spec :
    UpdateGoTypesDST.apply scenarioWidget
        (.genDecl false [] [.typeSpec { Name := "Widget", Decs := [], Typ := .StructType [] }])
      = .genDecl false []
          [.typeSpec { Name := "Widget", Decs := ["// +kubebuilder:subresource:status"],
                       Typ := .StructType [] }] ∧
    UpdateGoTypesDST.apply scenarioWidget
        (.genDecl false ["// +kubebuilder:object:root=true"]
          [.typeSpec { Name := "Widget", Decs := [], Typ := .StructType [] }])
      = .genDecl false ["// +kubebuilder:object:root=true"]
          [.typeSpec { Name := "Widget", Decs := ["// +kubebuilder:subresource:status"],
                       Typ := .StructType [] }] ∧
    (∀ (crd : CRD) (d : List String) (typ : Expr),
      UpdateGoTypesDST.apply { crd with Status := true }
          (.genDecl false d [.typeSpec { Name := crd.Kind, Decs := [], Typ := typ }])
        = .genDecl false d
            [.typeSpec { Name := crd.Kind, Decs := ["// +kubebuilder:subresource:status"],
                         Typ := typ }]) := by
  refine ⟨by rfl, by rfl, ?_⟩
  intro crd d typ
  simp [UpdateGoTypesDST.apply, UpdateGoTypesDST.applyList, UpdateGoTypesDST.visit]

/-- C18, as stated, fails: for the scenario resource and a type file that parses
and declares only `Widget`, without any `WidgetSpec`, with a printer and an
operating system that do not fail, `UpdateGoTypesDST` returns no error. -/
theorem UpdateGoTypesDST_no_spec_no_error :
    Node.typeSpecs scenarioTypesNoSpec
      = [{ Name := "Widget", Decs := [], Typ := .StructType [] }] ∧
    (UpdateGoTypesDST scenarioOutput
      (fun p => if p = "/tmp/sdk-1/api/v1/widget_types.go"
        then .parsed scenarioTypesNoSpec else .absent)
      "/tmp/sdk-1" [scenarioWidget]).1 = none := by
  constructor <;> decide

/-- C18, amended: `UpdateGoTypesDST` does not look for the `<Kind>Spec`
declaration and does not fail on account of its absence.  For every request,
every error it returns is the error of the parser, of the printer or of the
write for the type file of a resource of the request; it returns no error when
the type file of every resource parses and the printer and the write do not
fail.  For every resource of the request whose type file, which is that of no
other resource of the request, parses and holds no struct declaration named
`<Kind>Spec`, the tree that goes to the printer has the type of every
declaration as it was, and after a run without error the type file holds what
the printer made of this tree. -/
theorem UpdateGoTypesDST_no_spec (out : Output) (fs : FileSystem) (projectDir : String)
    (crds : List CRD) :
    (∀ e : String, (UpdateGoTypesDST out fs projectDir crds).1 = some e →
      ∃ c ∈ crds, ∃ cause : String,
        e = "parse " ++ goFile projectDir (hasMultipleGroups crds) c ++ ": " ++ cause ∨
        e = "print " ++ goFile projectDir (hasMultipleGroups crds) c ++ ": " ++ cause ∨
        e = "write " ++ goFile projectDir (hasMultipleGroups crds) c ++ ": " ++ cause) ∧
    ((∀ c ∈ crds, ∃ tree, fs (goFile projectDir (hasMultipleGroups crds) c) = .parsed tree) →
      (∀ tree, ∃ printed, out.Fprint tree = .ok printed) →
      (∀ path, out.WriteFile path = none) →
      (UpdateGoTypesDST out fs projectDir crds).1 = none) ∧
    (∀ (pre post : List CRD) (crd : CRD) (file : Node),
      crds = pre ++ crd :: post →
      (∀ c ∈ pre ++ post, goFile projectDir (hasMultipleGroups crds) c
        ≠ goFile projectDir (hasMultipleGroups crds) crd) →
      fs (goFile projectDir (hasMultipleGroups crds) crd) = .parsed file →
      (∀ ts ∈ Node.typeSpecs file, ∀ fields,
        ¬(ts.Name = crd.Kind ++ "Spec" ∧ ts.Typ = .StructType fields)) →
      (Node.typeSpecs (UpdateGoTypesDST.apply crd file)).map TypeSpec.Typ
        = (Node.typeSpecs file).map TypeSpec.Typ ∧
      ((UpdateGoTypesDST out fs projectDir crds).1 = none →
        ∃ printed, out.Fprint (UpdateGoTypesDST.apply crd file) = .ok printed ∧
          (UpdateGoTypesDST out fs projectDir crds).2
            (goFile projectDir (hasMultipleGroups crds) crd) = .parsed printed)) := by
  refine ⟨?_, ?_, ?_⟩
  · intro e he
    exact UpdateGoTypesDST_loop_error out _ _ crds fs e he
  · intro hparsed hprint hwrite
    exact UpdateGoTypesDST_loop_ok out _ _ crds fs hparsed hprint hwrite
  · intro pre post crd file hcrds hother hfs hnone
    refine ⟨?_, ?_⟩
    · rw [typeSpecs_apply, List.map_map]
      apply List.map_congr_left
      intro ts hts
      exact visit_typ_of_no_spec crd ts (hnone ts hts)
    · intro hok
      subst hcrds
      exact UpdateGoTypesDST_loop_written out projectDir _ pre post crd file fs hother hfs hok

/-- Witness of C18 amended on a request of two resources, `Widget` and `Gadget`,
whose type files parse and hold no `WidgetSpec` and no `GadgetSpec`: no error is
returned. -/
theorem UpdateGoTypesDST_no_spec_witness :
    (UpdateGoTypesDST scenarioOutput
      (fun p => if p = "/tmp/sdk-1/api/v1/widget_types.go" then .parsed scenarioTypesNoSpec
        else if p = "/tmp/sdk-1/api/v1/gadget_types.go" then .parsed (.other [])
        else .absent)
      "/tmp/sdk-1" [scenarioWidget, { scenarioWidget with Kind := "Gadget" }]).1 = none :=
  (UpdateGoTypesDST_no_spec scenarioOutput
    (fun p => if p = "/tmp/sdk-1/api/v1/widget_types.go" then .parsed scenarioTypesNoSpec
      else if p = "/tmp/sdk-1/api/v1/gadget_types.go" then .parsed (.other [])
      else .absent)
    "/tmp/sdk-1" [scenarioWidget, { scenarioWidget with Kind := "Gadget" }]).2.1
    (by
      intro c hc
      have hwidget : goFile "/tmp/sdk-1"
          (hasMultipleGroups [scenarioWidget, { scenarioWidget with Kind := "Gadget" }])
          scenarioWidget = "/tmp/sdk-1/api/v1/widget_types.go" := by decide
      have hgadget : goFile "/tmp/sdk-1"
          (hasMultipleGroups [scenarioWidget, { scenarioWidget with Kind := "Gadget" }])
          { scenarioWidget with Kind := "Gadget" } = "/tmp/sdk-1/api/v1/gadget_types.go" := by
        decide
      simp only [List.mem_cons, List.mem_singleton, List.not_mem_nil, or_false] at hc
      rcases hc with rfl | rfl
      · exact ⟨scenarioTypesNoSpec, by simp [hwidget]⟩
      · exact ⟨.other [], by rw [hgadget]; simp⟩)
    (fun tree => ⟨tree, rfl⟩)
    (fun _ => rfl)

/-! ## The option literal of the manager -/

theorem applyList_eq_map (namespaces : List String) (l : List Ast) :
    PatchMainNamespaceScopeDST.applyList namespaces l
      = l.map (PatchMainNamespaceScopeDST.apply namespaces) := by
  induction l with
  | nil => rfl
  | cons a rest ih => simp [PatchMainNamespaceScopeDST.applyList, ih]

theorem isCacheKey_apply (namespaces : List String) (e : Ast) :
    isCacheKey (PatchMainNamespaceScopeDST.apply namespaces e) = isCacheKey e := by
  cases e with
  | KeyValueExpr key value =>
    cases key <;> simp [PatchMainNamespaceScopeDST.apply, isCacheKey]
  | _ => simp [PatchMainNamespaceScopeDST.apply, isCacheKey]

theorem cacheConfig_eq (namespaces : List String) :
    cacheConfig namespaces
      = .KeyValueExpr (.Ident "Cache")
          (.CompositeLit (.SelectorExpr "cache" "Options")
            [.KeyValueExpr (.Ident "DefaultNamespaces")
              (.CompositeLit (.MapType (.Ident "string") (.SelectorExpr "cache" "Config"))
                (namespaces.map (fun ns =>
                  Ast.KeyValueExpr (.BasicLit .STRING ("\"" ++ ns ++ "\""))
                    (.CompositeLit (.SelectorExpr "cache" "Config") []))))]) := by
  simp [cacheConfig, foldl_append_singleton]

theorem isCacheKey_cacheConfig (namespaces : List String) :
    isCacheKey (cacheConfig namespaces) = true := by
  simp [cacheConfig_eq, isCacheKey]

theorem apply_cacheConfig (namespaces built : List String) :
    PatchMainNamespaceScopeDST.apply namespaces (cacheConfig built) = cacheConfig built := by
  have hentries : ∀ l : List String,
      PatchMainNamespaceScopeDST.applyList namespaces (l.map (fun ns =>
        Ast.KeyValueExpr (.BasicLit .STRING ("\"" ++ ns ++ "\""))
          (.CompositeLit (.SelectorExpr "cache" "Config") [])))
      = l.map (fun ns =>
        Ast.KeyValueExpr (.BasicLit .STRING ("\"" ++ ns ++ "\""))
          (.CompositeLit (.SelectorExpr "cache" "Config") [])) := by
    intro l
    induction l with
    | nil => rfl
    | cons a rest ih =>
      simp [PatchMainNamespaceScopeDST.applyList, PatchMainNamespaceScopeDST.apply, ih]
  rw [cacheConfig_eq]
  simp [PatchMainNamespaceScopeDST.apply, PatchMainNamespaceScopeDST.applyList, hentries]

theorem cacheFieldIdx_loop_none (l : List Ast) (i : Nat)
    (h : ∀ e ∈ l, isCacheKey e = false) : cacheFieldIdx.loop l i = none := by
  induction l generalizing i with
  | nil => rfl
  | cons a rest ih =>
    rw [cacheFieldIdx.loop, h a (List.mem_cons_self _ _)]
    exact ih _ (fun e he => h e (List.mem_cons_of_mem _ he))

theorem cacheFieldIdx_loop_some (pre post : List Ast) (c : Ast) (i : Nat)
    (h : ∀ e ∈ pre, isCacheKey e = false) (hc : isCacheKey c = true) :
    cacheFieldIdx.loop (pre ++ c :: post) i = some (i + pre.length) := by
  induction pre generalizing i with
  | nil => simp [cacheFieldIdx.loop, hc]
  | cons a rest ih =>
    rw [List.cons_append, cacheFieldIdx.loop, h a (List.mem_cons_self _ _)]
    simp only [Bool.false_eq_true, if_false]
    rw [ih _ (fun e he => h e (List.mem_cons_of_mem _ he))]
    simp only [List.length_cons]
    congr 1
    omega

theorem cacheFieldIdx_loop_split (l : List Ast) (i j : Nat)
    (h : cacheFieldIdx.loop l i = some j) :
    ∃ pre c post, l = pre ++ c :: post ∧ j = i + pre.length ∧
      (∀ e ∈ pre, isCacheKey e = false) ∧ isCacheKey c = true := by
  induction l generalizing i with
  | nil => simp [cacheFieldIdx.loop] at h
  | cons a rest ih =>
    rw [cacheFieldIdx.loop] at h
    by_cases ha : isCacheKey a = true
    · rw [if_pos ha] at h
      exact ⟨[], a, rest, rfl, by simpa using (Option.some.inj h).symm, by simp, ha⟩
    · rw [if_neg ha] at h
      obtain ⟨pre, c, post, hl, hj, hpre, hc⟩ := ih _ h
      refine ⟨a :: pre, c, post, by rw [hl]; rfl, by simp only [List.length_cons]; omega, ?_, hc⟩
      intro e he
      rcases List.mem_cons.mp he with rfl | he
      · simpa using ha
      · exact hpre e he

theorem cacheFieldIdx_loop_all (l : List Ast) (i : Nat) (h : cacheFieldIdx.loop l i = none) :
    ∀ e ∈ l, isCacheKey e = false := by
  induction l generalizing i with
  | nil => intro e he; exact absurd he (List.not_mem_nil _)
  | cons a rest ih =>
    rw [cacheFieldIdx.loop] at h
    by_cases ha : isCacheKey a = true
    · rw [if_pos ha] at h
      exact absurd h (by simp)
    · rw [if_neg ha] at h
      intro e he
      rcases List.mem_cons.mp he with rfl | he
      · simpa using ha
      · exact ih _ h e he

theorem take_drop_middle (pre post : List Ast) (c : Ast) :
    (pre ++ c :: post).take pre.length ++ (pre ++ c :: post).drop (pre.length + 1)
      = pre ++ post := by
  induction pre with
  | nil => simp
  | cons a rest ih => simp

theorem set_middle (pre post : List Ast) (c d : Ast) :
    (pre ++ c :: post).set pre.length d = pre ++ d :: post := by
  induction pre with
  | nil => simp
  | cons a rest ih => simp

theorem patchElts_split (namespaces : List String) (pre post : List Ast) (c : Ast)
    (h : ∀ e ∈ pre, isCacheKey e = false) (hc : isCacheKey c = true) :
    patchElts namespaces (pre ++ c :: post)
      = if namespaces = [] then pre ++ post else pre ++ cacheConfig namespaces :: post := by
  have hidx : cacheFieldIdx (pre ++ c :: post) = some pre.length := by
    simpa [cacheFieldIdx] using cacheFieldIdx_loop_some pre post c 0 h hc
  unfold patchElts
  simp only [hidx, List.length_eq_zero]
  split
  · exact take_drop_middle pre post c
  · exact set_middle pre post c _

theorem patchElts_none (namespaces : List String) (elts : List Ast)
    (h : ∀ e ∈ elts, isCacheKey e = false) :
    patchElts namespaces elts
      = if namespaces = [] then elts else elts ++ [cacheConfig namespaces] := by
  have hidx : cacheFieldIdx elts = none := cacheFieldIdx_loop_none elts 0 h
  unfold patchElts
  simp only [hidx, List.length_eq_zero]

theorem patchElts_map_apply (namespaces walked : List String) (elts : List Ast) :
    patchElts namespaces (elts.map (PatchMainNamespaceScopeDST.apply walked))
      = (patchElts namespaces elts).map (PatchMainNamespaceScopeDST.apply walked) := by
  cases hidx : cacheFieldIdx elts with
  | none =>
    have hall := cacheFieldIdx_loop_all elts 0 hidx
    rw [patchElts_none namespaces elts hall, patchElts_none]
    · split
      · rfl
      · simp [apply_cacheConfig]
    · intro e he
      obtain ⟨x, hx, rfl⟩ := List.mem_map.mp he
      rw [isCacheKey_apply]
      exact hall x hx
  | some i =>
    obtain ⟨pre, c, post, hl, _, hpre, hc⟩ := cacheFieldIdx_loop_split elts 0 i hidx
    subst hl
    rw [patchElts_split namespaces pre post c hpre hc, List.map_append, List.map_cons,
      patchElts_split]
    · split
      · simp
      · simp [apply_cacheConfig]
    · intro e he
      obtain ⟨x, hx, rfl⟩ := List.mem_map.mp he
      rw [isCacheKey_apply]
      exact hpre x hx
    · rw [isCacheKey_apply]
      exact hc

theorem visit_applyList (namespaces : List String) (fn : Ast) (args : List Ast) :
    PatchMainNamespaceScopeDST.visit namespaces fn
        (PatchMainNamespaceScopeDST.applyList namespaces args)
      = PatchMainNamespaceScopeDST.applyList namespaces
        (PatchMainNamespaceScopeDST.visit namespaces fn args) := by
  cases fn with
  | SelectorExpr x sel =>
    match args with
    | [] => simp [PatchMainNamespaceScopeDST.visit, PatchMainNamespaceScopeDST.applyList]
    | [a] => simp [PatchMainNamespaceScopeDST.visit, PatchMainNamespaceScopeDST.applyList]
    | a :: b :: c :: rest =>
      simp [PatchMainNamespaceScopeDST.visit, PatchMainNamespaceScopeDST.applyList]
    | [a, b] =>
      cases b with
      | CompositeLit typ elts =>
        by_cases hsel : sel = "NewManager"
        · simp [PatchMainNamespaceScopeDST.visit, PatchMainNamespaceScopeDST.applyList,
            PatchMainNamespaceScopeDST.apply, hsel, applyList_eq_map, patchElts_map_apply]
        · simp [PatchMainNamespaceScopeDST.visit, PatchMainNamespaceScopeDST.applyList,
            PatchMainNamespaceScopeDST.apply, hsel]
      | _ =>
        simp [PatchMainNamespaceScopeDST.visit, PatchMainNamespaceScopeDST.applyList,
          PatchMainNamespaceScopeDST.apply]
  | _ => simp [PatchMainNamespaceScopeDST.visit]

/-- The recursion of `dstutil.Apply` at a call: the callback first, then the
walk of the children of the call as the callback left them. -/
theorem PatchMainNamespaceScopeDST_apply_call (namespaces : List String) (fn : Ast)
    (args : List Ast) :
    PatchMainNamespaceScopeDST.apply namespaces (.CallExpr fn args)
      = .CallExpr (PatchMainNamespaceScopeDST.apply namespaces fn)
          (PatchMainNamespaceScopeDST.applyList namespaces
            (PatchMainNamespaceScopeDST.visit namespaces fn args)) := by
  rw [PatchMainNamespaceScopeDST.apply, visit_applyList]

theorem visit_of_not_isManagerCall (namespaces : List String) (fn : Ast) (args : List Ast)
    (h : isManagerCall fn args = false) :
    PatchMainNamespaceScopeDST.visit namespaces fn args = args := by
  unfold PatchMainNamespaceScopeDST.visit
  split
  · rename_i x sel config typ elts
    have hsel : sel ≠ "NewManager" := by
      intro hs
      simp [isManagerCall, hs] at h
    rw [if_neg hsel]
  · rfl

mutual
theorem apply_of_not_hasManagerCall (namespaces : List String) :
    ∀ t : Ast, hasManagerCall t = false → PatchMainNamespaceScopeDST.apply namespaces t = t
  | .Ident _, _ => rfl
  | .BasicLit _ _, _ => rfl
  | .SelectorExpr x sel, h => by
    simp only [hasManagerCall] at h
    simp [PatchMainNamespaceScopeDST.apply, apply_of_not_hasManagerCall namespaces x h]
  | .CallExpr fn args, h => by
    simp only [hasManagerCall, Bool.or_eq_false_iff] at h
    rw [PatchMainNamespaceScopeDST.apply, apply_of_not_hasManagerCall namespaces fn h.1.2,
      applyList_of_not_hasManagerCall namespaces args h.2,
      visit_of_not_isManagerCall namespaces fn args h.1.1]
  | .CompositeLit typ elts, h => by
    simp only [hasManagerCall] at h
    rw [PatchMainNamespaceScopeDST.apply, applyList_of_not_hasManagerCall namespaces elts h]
  | .KeyValueExpr key value, h => by
    simp only [hasManagerCall, Bool.or_eq_false_iff] at h
    rw [PatchMainNamespaceScopeDST.apply, apply_of_not_hasManagerCall namespaces key h.1,
      apply_of_not_hasManagerCall namespaces value h.2]
  | .Other children, h => by
    simp only [hasManagerCall] at h
    rw [PatchMainNamespaceScopeDST.apply,
      applyList_of_not_hasManagerCall namespaces children h]
theorem applyList_of_not_hasManagerCall (namespaces : List String) :
    ∀ l : List Ast, hasManagerCallList l = false →
      PatchMainNamespaceScopeDST.applyList namespaces l = l
  | [], _ => rfl
  | n :: ns, h => by
    simp only [hasManagerCallList, Bool.or_eq_false_iff] at h
    rw [PatchMainNamespaceScopeDST.applyList, apply_of_not_hasManagerCall namespaces n h.1,
      applyList_of_not_hasManagerCall namespaces ns h.2]
end

/-- C13, as stated, fails.  A call whose callee is the plain identifier
`NewManager` is not patched: with the empty namespace list its `Cache` element
stays.  And an element other than `Cache` that holds such a call is changed by
the walk: with the list `default`, the element `Client` gets a `Cache` element
in the literal of the call it holds. -/
theorem PatchMainNamespaceScopeDST_unpatched_and_nested :
    PatchMainNamespaceScopeDST.apply []
        (.CallExpr (.Ident "NewManager")
          [.Ident "cfg",
           .CompositeLit (.Ident "Options")
             [.KeyValueExpr (.Ident "Cache") (.Ident "opts")]])
      = .CallExpr (.Ident "NewManager")
          [.Ident "cfg",
           .CompositeLit (.Ident "Options")
             [.KeyValueExpr (.Ident "Cache") (.Ident "opts")]] ∧
    PatchMainNamespaceScopeDST.apply ["default"]
        (.CallExpr (.SelectorExpr (.Ident "ctrl") "NewManager")
          [.Ident "cfg",
           .CompositeLit (.SelectorExpr "ctrl" "Options")
             [.KeyValueExpr (.Ident "Client")
               (.CallExpr (.SelectorExpr (.Ident "cluster") "NewManager")
                 [.Ident "cfg", .CompositeLit (.Ident "Options") []])]])
      = .CallExpr (.SelectorExpr (.Ident "ctrl") "NewManager")
          [.Ident "cfg",
           .CompositeLit (.SelectorExpr "ctrl" "Options")
             [.KeyValueExpr (.Ident "Client")
               (.CallExpr (.SelectorExpr (.Ident "cluster") "NewManager")
                 [.Ident "cfg", .CompositeLit (.Ident "Options") [cacheConfig ["default"]]]),
              cacheConfig ["default"]]] := by
  constructor <;> rfl

/-- C13, amended: for a call whose callee is a selector expression that selects
`NewManager`, with two arguments the second of which is a composite literal,
the walk leaves the callee selector, the first argument and the type of the
literal in place and changes the element list as follows.  With an empty
namespace list the first element keyed `Cache` is removed; with a non-empty
list it is replaced in place, or appended at the end when there is none, by
`Cache: cache.Options{DefaultNamespaces: map[string]cache.Config{...}}`, whose
map has one entry per namespace, in input order, from the quoted name to the
empty literal `cache.Config{}`.  The other elements stay in their order, each
walked in the same way, and a node that holds no such call is unchanged by the
walk. -/
theorem PatchMainNamespaceScopeDST_option_literal (namespaces : List String) (x config : Ast)
    (typ : LitType) (pre post : List Ast) (c : Ast)
    (hpre : ∀ e ∈ pre, isCacheKey e = false) (hc : isCacheKey c = true) :
    PatchMainNamespaceScopeDST.apply namespaces
        (.CallExpr (.SelectorExpr x "NewManager") [config, .CompositeLit typ (pre ++ c :: post)])
      = .CallExpr (.SelectorExpr (PatchMainNamespaceScopeDST.apply namespaces x) "NewManager")
          [PatchMainNamespaceScopeDST.apply namespaces config,
           .CompositeLit typ
             (if namespaces = [] then
                pre.map (PatchMainNamespaceScopeDST.apply namespaces)
                  ++ post.map (PatchMainNamespaceScopeDST.apply namespaces)
              else
                pre.map (PatchMainNamespaceScopeDST.apply namespaces)
                  ++ cacheConfig namespaces
                    :: post.map (PatchMainNamespaceScopeDST.apply namespaces))] ∧
    PatchMainNamespaceScopeDST.apply namespaces
        (.CallExpr (.SelectorExpr x "NewManager") [config, .CompositeLit typ pre])
      = .CallExpr (.SelectorExpr (PatchMainNamespaceScopeDST.apply namespaces x) "NewManager")
          [PatchMainNamespaceScopeDST.apply namespaces config,
           .CompositeLit typ
             (if namespaces = [] then pre.map (PatchMainNamespaceScopeDST.apply namespaces)
              else
                pre.map (PatchMainNamespaceScopeDST.apply namespaces)
                  ++ [cacheConfig namespaces])] ∧
    (∀ t : Ast, hasManagerCall t = false →
      PatchMainNamespaceScopeDST.apply namespaces t = t) ∧
    cacheConfig namespaces
      = .KeyValueExpr (.Ident "Cache")
          (.CompositeLit (.SelectorExpr "cache" "Options")
            [.KeyValueExpr (.Ident "DefaultNamespaces")
              (.CompositeLit (.MapType (.Ident "string") (.SelectorExpr "cache" "Config"))
                (namespaces.map (fun ns =>
                  Ast.KeyValueExpr (.BasicLit .STRING ("\"" ++ ns ++ "\""))
                    (.CompositeLit (.SelectorExpr "cache" "Config") []))))]) := by
  refine ⟨?_, ?_, apply_of_not_hasManagerCall namespaces, cacheConfig_eq namespaces⟩
  · rw [PatchMainNamespaceScopeDST_apply_call]
    simp only [PatchMainNamespaceScopeDST.visit, if_true, PatchMainNamespaceScopeDST.applyList,
      PatchMainNamespaceScopeDST.apply, patchElts_split namespaces pre post c hpre hc]
    split
    · simp [applyList_eq_map]
    · simp [applyList_eq_map, apply_cacheConfig]
  · rw [PatchMainNamespaceScopeDST_apply_call]
    simp only [PatchMainNamespaceScopeDST.visit, if_true, PatchMainNamespaceScopeDST.applyList,
      PatchMainNamespaceScopeDST.apply, patchElts_none namespaces pre hpre]
    split
    · simp [applyList_eq_map]
    · simp [applyList_eq_map, apply_cacheConfig]

/-- Witness of C13 amended on the call of the scaffolded `cmd/main.go`, with the
namespaces `team-a` and `team-b`: the element `Scheme` stays and the element
`Cache` is replaced in place. -/
theorem PatchMainNamespaceScopeDST_option_literal_witness :
    PatchMainNamespaceScopeDST.apply ["team-a", "team-b"]
        (.CallExpr (.SelectorExpr (.Ident "ctrl") "NewManager")
          [.CallExpr (.SelectorExpr (.Ident "ctrl") "GetConfigOrDie") [],
           .CompositeLit (.SelectorExpr "ctrl" "Options")
             [.KeyValueExpr (.Ident "Scheme") (.Ident "scheme"),
              .KeyValueExpr (.Ident "Cache")
                (.CompositeLit (.SelectorExpr "cache" "Options") [])]])
      = .CallExpr (.SelectorExpr (.Ident "ctrl") "NewManager")
          [.CallExpr (.SelectorExpr (.Ident "ctrl") "GetConfigOrDie") [],
           .CompositeLit (.SelectorExpr "ctrl" "Options")
             [.KeyValueExpr (.Ident "Scheme") (.Ident "scheme"),
              .KeyValueExpr (.Ident "Cache")
                (.CompositeLit (.SelectorExpr "cache" "Options")
                  [.KeyValueExpr (.Ident "DefaultNamespaces")
                    (.CompositeLit
                      (.MapType (.Ident "string") (.SelectorExpr "cache" "Config"))
                      [.KeyValueExpr (.BasicLit .STRING "\"team-a\"")
                         (.CompositeLit (.SelectorExpr "cache" "Config") []),
                       .KeyValueExpr (.BasicLit .STRING "\"team-b\"")
                         (.CompositeLit (.SelectorExpr "cache" "Config") [])])])]] :=
  (PatchMainNamespaceScopeDST_option_literal ["team-a", "team-b"] (.Ident "ctrl")
    (.CallExpr (.SelectorExpr (.Ident "ctrl") "GetConfigOrDie") [])
    (.SelectorExpr "ctrl" "Options")
    [.KeyValueExpr (.Ident "Scheme") (.Ident "scheme")] []
    (.KeyValueExpr (.Ident "Cache") (.CompositeLit (.SelectorExpr "cache" "Options") []))
    (by decide) (by decide)).1.trans (by rfl)

/-! ## Idempotence of the namespace patch -/

theorem patchElts_idem (namespaces : List String) (hns : namespaces ≠ []) (elts : List Ast) :
    patchElts namespaces (patchElts namespaces elts) = patchElts namespaces elts := by
  cases hidx : cacheFieldIdx elts with
  | none =>
    have hall := cacheFieldIdx_loop_all elts 0 hidx
    rw [patchElts_none namespaces elts hall, if_neg hns,
      patchElts_split namespaces elts [] (cacheConfig namespaces) hall
        (isCacheKey_cacheConfig namespaces), if_neg hns]
  | some i =>
    obtain ⟨pre, c, post, hl, _, hpre, hc⟩ := cacheFieldIdx_loop_split elts 0 i hidx
    subst hl
    rw [patchElts_split namespaces pre post c hpre hc, if_neg hns,
      patchElts_split namespaces pre post (cacheConfig namespaces) hpre
        (isCacheKey_cacheConfig namespaces), if_neg hns]

theorem visit_apply_fn (namespaces walked : List String) (fn : Ast) (args : List Ast) :
    PatchMainNamespaceScopeDST.visit namespaces
        (PatchMainNamespaceScopeDST.apply walked fn) args
      = PatchMainNamespaceScopeDST.visit namespaces fn args := by
  cases fn with
  | SelectorExpr x sel =>
    match args with
    | [] => simp [PatchMainNamespaceScopeDST.visit, PatchMainNamespaceScopeDST.apply]
    | [a] => simp [PatchMainNamespaceScopeDST.visit, PatchMainNamespaceScopeDST.apply]
    | a :: b :: c :: rest =>
      simp [PatchMainNamespaceScopeDST.visit, PatchMainNamespaceScopeDST.apply]
    | [a, b] =>
      cases b <;> simp [PatchMainNamespaceScopeDST.visit, PatchMainNamespaceScopeDST.apply]
  | _ => simp [PatchMainNamespaceScopeDST.visit, PatchMainNamespaceScopeDST.apply]

theorem visit_idem (namespaces : List String) (hns : namespaces ≠ []) (fn : Ast)
    (args : List Ast) :
    PatchMainNamespaceScopeDST.visit namespaces fn
        (PatchMainNamespaceScopeDST.visit namespaces fn args)
      = PatchMainNamespaceScopeDST.visit namespaces fn args := by
  cases fn with
  | SelectorExpr x sel =>
    match args with
    | [] => simp [PatchMainNamespaceScopeDST.visit]
    | [a] => simp [PatchMainNamespaceScopeDST.visit]
    | a :: b :: c :: rest => simp [PatchMainNamespaceScopeDST.visit]
    | [a, b] =>
      cases b with
      | CompositeLit typ elts =>
        by_cases hsel : sel = "NewManager"
        · simp [PatchMainNamespaceScopeDST.visit, hsel, patchElts_idem namespaces hns]
        · simp [PatchMainNamespaceScopeDST.visit, hsel]
      | _ => simp [PatchMainNamespaceScopeDST.visit]
  | _ => simp [PatchMainNamespaceScopeDST.visit]

mutual
theorem apply_idem (namespaces : List String) (hns : namespaces ≠ []) :
    ∀ t : Ast, PatchMainNamespaceScopeDST.apply namespaces
        (PatchMainNamespaceScopeDST.apply namespaces t)
      = PatchMainNamespaceScopeDST.apply namespaces t
  | .Ident _ => rfl
  | .BasicLit _ _ => rfl
  | .SelectorExpr x sel => by
    simp [PatchMainNamespaceScopeDST.apply, apply_idem namespaces hns x]
  | .CallExpr fn args => by
    rw [PatchMainNamespaceScopeDST.apply, PatchMainNamespaceScopeDST.apply,
      apply_idem namespaces hns fn, visit_apply_fn, ← visit_applyList,
      applyList_idem namespaces hns args, visit_idem namespaces hns]
  | .CompositeLit typ elts => by
    simp [PatchMainNamespaceScopeDST.apply, applyList_idem namespaces hns elts]
  | .KeyValueExpr key value => by
    simp [PatchMainNamespaceScopeDST.apply, apply_idem namespaces hns key,
      apply_idem namespaces hns value]
  | .Other children => by
    simp [PatchMainNamespaceScopeDST.apply, applyList_idem namespaces hns children]
theorem applyList_idem (namespaces : List String) (hns : namespaces ≠ []) :
    ∀ l : List Ast, PatchMainNamespaceScopeDST.applyList namespaces
        (PatchMainNamespaceScopeDST.applyList namespaces l)
      = PatchMainNamespaceScopeDST.applyList namespaces l
  | [] => rfl
  | n :: ns => by
    simp [PatchMainNamespaceScopeDST.applyList, apply_idem namespaces hns n,
      applyList_idem namespaces hns ns]
end

theorem isManagerCall_visit_apply (namespaces : List String) (fn : Ast) (args : List Ast) :
    isManagerCall (PatchMainNamespaceScopeDST.apply namespaces fn)
        (PatchMainNamespaceScopeDST.visit namespaces fn
          (PatchMainNamespaceScopeDST.applyList namespaces args))
      = isManagerCall fn args := by
  cases fn with
  | SelectorExpr x sel =>
    match args with
    | [] =>
      simp [PatchMainNamespaceScopeDST.visit, PatchMainNamespaceScopeDST.applyList,
        PatchMainNamespaceScopeDST.apply, isManagerCall]
    | [a] =>
      simp [PatchMainNamespaceScopeDST.visit, PatchMainNamespaceScopeDST.applyList,
        PatchMainNamespaceScopeDST.apply, isManagerCall]
    | a :: b :: c :: rest =>
      simp [PatchMainNamespaceScopeDST.visit, PatchMainNamespaceScopeDST.applyList,
        PatchMainNamespaceScopeDST.apply, isManagerCall]
    | [a, b] =>
      cases b with
      | CompositeLit typ elts =>
        by_cases hsel : sel = "NewManager"
        · simp [PatchMainNamespaceScopeDST.visit, PatchMainNamespaceScopeDST.applyList,
            PatchMainNamespaceScopeDST.apply, isManagerCall, hsel]
        · simp [PatchMainNamespaceScopeDST.visit, PatchMainNamespaceScopeDST.applyList,
            PatchMainNamespaceScopeDST.apply, isManagerCall, hsel]
      | _ =>
        simp [PatchMainNamespaceScopeDST.visit, PatchMainNamespaceScopeDST.applyList,
          PatchMainNamespaceScopeDST.apply, isManagerCall]
  | _ =>
    simp [PatchMainNamespaceScopeDST.visit, PatchMainNamespaceScopeDST.apply, isManagerCall]

theorem isManagerCall_applyList (namespaces : List String) (fn : Ast) (args : List Ast) :
    isManagerCall fn (PatchMainNamespaceScopeDST.applyList namespaces args)
      = isManagerCall fn args := by
  cases fn with
  | SelectorExpr x sel =>
    match args with
    | [] => simp [PatchMainNamespaceScopeDST.applyList, isManagerCall]
    | [a] => simp [PatchMainNamespaceScopeDST.applyList, isManagerCall]
    | a :: b :: c :: rest => simp [PatchMainNamespaceScopeDST.applyList, isManagerCall]
    | [a, b] =>
      cases b <;>
        simp [PatchMainNamespaceScopeDST.applyList, PatchMainNamespaceScopeDST.apply,
          isManagerCall]
  | _ => simp [isManagerCall]

mutual
theorem hasManagerCall_apply (namespaces : List String) :
    ∀ t : Ast, hasManagerCall (PatchMainNamespaceScopeDST.apply namespaces t) = hasManagerCall t
  | .Ident _ => rfl
  | .BasicLit _ _ => rfl
  | .SelectorExpr x sel => by
    simp [PatchMainNamespaceScopeDST.apply, hasManagerCall, hasManagerCall_apply namespaces x]
  | .CallExpr fn args => by
    rw [PatchMainNamespaceScopeDST.apply]
    simp only [hasManagerCall]
    rw [isManagerCall_visit_apply, hasManagerCall_apply namespaces fn]
    cases hcall : isManagerCall fn args with
    | true => simp
    | false =>
      rw [visit_of_not_isManagerCall namespaces fn _
          (by rw [isManagerCall_applyList]; exact hcall),
        hasManagerCallList_apply namespaces args]
  | .CompositeLit typ elts => by
    simp [PatchMainNamespaceScopeDST.apply, hasManagerCall,
      hasManagerCallList_apply namespaces elts]
  | .KeyValueExpr key value => by
    simp [PatchMainNamespaceScopeDST.apply, hasManagerCall, hasManagerCall_apply namespaces key,
      hasManagerCall_apply namespaces value]
  | .Other children => by
    simp [PatchMainNamespaceScopeDST.apply, hasManagerCall,
      hasManagerCallList_apply namespaces children]
theorem hasManagerCallList_apply (namespaces : List String) :
    ∀ l : List Ast, hasManagerCallList (PatchMainNamespaceScopeDST.applyList namespaces l)
      = hasManagerCallList l
  | [] => rfl
  | n :: ns => by
    simp [PatchMainNamespaceScopeDST.applyList, hasManagerCallList,
      hasManagerCall_apply namespaces n, hasManagerCallList_apply namespaces ns]
end

/-! ## The import of the cache package -/

theorem ensureImport_loop_true (decls : List Decl) :
    ensureImport.loop decls true = (decls, true) := by
  induction decls with
  | nil => rfl
  | cons d rest ih =>
    cases d with
    | Import specs => simp [ensureImport.loop, ih]
    | Other node => simp [ensureImport.loop, ih]

theorem ensureImport_loop_false (decls : List Decl) :
    ((ensureImport.loop decls false).2 = false → (ensureImport.loop decls false).1 = decls) ∧
    ((ensureImport.loop decls false).2 = true →
      ensureImport.loop (ensureImport.loop decls false).1 false
        = ((ensureImport.loop decls false).1, true)) := by
  induction decls with
  | nil => simp [ensureImport.loop]
  | cons d rest ih =>
    cases d with
    | Import specs =>
      refine ⟨by simp [ensureImport.loop, ensureImport_loop_true], ?_⟩
      intro _
      by_cases h : specs.any (fun spec => spec.Path == cacheImportPath) = true
      · simp [ensureImport.loop, ensureImport_loop_true, h]
      · simp only [Bool.not_eq_true] at h
        simp [ensureImport.loop, ensureImport_loop_true, h]
    | Other node =>
      obtain ⟨ih1, ih2⟩ := ih
      constructor
      · intro h
        simp only [ensureImport.loop] at h ⊢
        rw [ih1 h]
      · intro h
        simp only [ensureImport.loop] at h ⊢
        rw [ih2 h]

theorem ensureImport_idem (decls : List Decl) :
    ensureImport (ensureImport decls) = ensureImport decls := by
  obtain ⟨h1, h2⟩ := ensureImport_loop_false decls
  cases hfound : (ensureImport.loop decls false).2 with
  | true =>
    have hfirst : ensureImport decls = (ensureImport.loop decls false).1 := by
      simp [ensureImport, hfound]
    rw [hfirst]
    simp [ensureImport, h2 hfound]
  | false =>
    have hfirst : ensureImport decls
        = Decl.Import [{ Name := none, Path := cacheImportPath }] :: decls := by
      simp [ensureImport, hfound, h1 hfound]
    rw [hfirst]
    simp [ensureImport, ensureImport.loop, ensureImport_loop_true]

theorem ensureImport_loop_map (namespaces : List String) (decls : List Decl) (found : Bool) :
    ensureImport.loop (decls.map (PatchMainNamespaceScopeDST.applyDecl namespaces)) found
      = ((ensureImport.loop decls found).1.map (PatchMainNamespaceScopeDST.applyDecl namespaces),
         (ensureImport.loop decls found).2) := by
  induction decls generalizing found with
  | nil => rfl
  | cons d rest ih =>
    cases d with
    | Import specs =>
      simp [ensureImport.loop, PatchMainNamespaceScopeDST.applyDecl, ih]
    | Other node =>
      simp [ensureImport.loop, PatchMainNamespaceScopeDST.applyDecl, ih]

theorem ensureImport_map (namespaces : List String) (decls : List Decl) :
    ensureImport (decls.map (PatchMainNamespaceScopeDST.applyDecl namespaces))
      = (ensureImport decls).map (PatchMainNamespaceScopeDST.applyDecl namespaces) := by
  simp only [ensureImport, ensureImport_loop_map]
  cases (ensureImport.loop decls false).2 <;>
    simp [PatchMainNamespaceScopeDST.applyDecl]

theorem ensureImport_loop_hasManagerCall (decls : List Decl) (found : Bool) :
    (ensureImport.loop decls found).1.any Decl.hasManagerCall
      = decls.any Decl.hasManagerCall := by
  induction decls generalizing found with
  | nil => rfl
  | cons d rest ih =>
    cases d with
    | Import specs => simp [ensureImport.loop, Decl.hasManagerCall, ih]
    | Other node => simp [ensureImport.loop, Decl.hasManagerCall, ih]

theorem ensureImport_hasManagerCall (decls : List Decl) :
    (ensureImport decls).any Decl.hasManagerCall = decls.any Decl.hasManagerCall := by
  simp only [ensureImport]
  cases h : (ensureImport.loop decls false).2 <;>
    simp [Decl.hasManagerCall, ← ensureImport_loop_hasManagerCall decls false]

theorem applyDecl_idem (namespaces : List String) (hns : namespaces ≠ []) (d : Decl) :
    PatchMainNamespaceScopeDST.applyDecl namespaces
        (PatchMainNamespaceScopeDST.applyDecl namespaces d)
      = PatchMainNamespaceScopeDST.applyDecl namespaces d := by
  cases d with
  | Import specs => rfl
  | Other node => simp [PatchMainNamespaceScopeDST.applyDecl, apply_idem namespaces hns node]

theorem applyDecl_hasManagerCall (namespaces : List String) (d : Decl) :
    (PatchMainNamespaceScopeDST.applyDecl namespaces d).hasManagerCall = d.hasManagerCall := by
  cases d with
  | Import specs => rfl
  | Other node =>
    simp [PatchMainNamespaceScopeDST.applyDecl, Decl.hasManagerCall,
      hasManagerCall_apply namespaces node]

theorem patch_idem (namespaces : List String) (hns : namespaces ≠ []) (file : File) :
    PatchMainNamespaceScopeDST.patch namespaces
        (PatchMainNamespaceScopeDST.patch namespaces file).1
      = PatchMainNamespaceScopeDST.patch namespaces file := by
  have hdecls : ensureImport ((ensureImport (file.Decls.map
        (PatchMainNamespaceScopeDST.applyDecl namespaces))).map
        (PatchMainNamespaceScopeDST.applyDecl namespaces))
      = ensureImport (file.Decls.map (PatchMainNamespaceScopeDST.applyDecl namespaces)) := by
    rw [← ensureImport_map, List.map_map]
    have hmap : (PatchMainNamespaceScopeDST.applyDecl namespaces
        ∘ PatchMainNamespaceScopeDST.applyDecl namespaces)
        = PatchMainNamespaceScopeDST.applyDecl namespaces := by
      funext d
      exact applyDecl_idem namespaces hns d
    rw [hmap, ensureImport_idem]
  have hfound : (ensureImport (file.Decls.map
        (PatchMainNamespaceScopeDST.applyDecl namespaces))).any Decl.hasManagerCall
      = file.Decls.any Decl.hasManagerCall := by
    rw [ensureImport_hasManagerCall, List.any_map]
    congr 1
    funext d
    exact applyDecl_hasManagerCall namespaces d
  simp only [PatchMainNamespaceScopeDST.patch, hdecls, hfound]

/-- C14: for a non-empty namespace list, the tree that
`PatchMainNamespaceScopeDST` builds from its own result is this result: the
walk over the calls, the import declarations and the value of `found` are the
same the second time; so a second run on a file that the first run has written
writes the same file. -/
theorem PatchMainNamespaceScopeDST_idempotent (namespaces : List String) (file : File)
    (hns : namespaces ≠ []) :
    PatchMainNamespaceScopeDST.patch namespaces
        (PatchMainNamespaceScopeDST.patch namespaces file).1
      = PatchMainNamespaceScopeDST.patch namespaces file ∧
    (∀ t : Ast, PatchMainNamespaceScopeDST.apply namespaces
        (PatchMainNamespaceScopeDST.apply namespaces t)
      = PatchMainNamespaceScopeDST.apply namespaces t) ∧
    (∀ decls : List Decl, ensureImport (ensureImport decls) = ensureImport decls) ∧
    (∀ written : File,
      PatchMainNamespaceScopeDST (.ok file) namespaces = (none, some written) →
      PatchMainNamespaceScopeDST (.ok written) namespaces = (none, some written)) := by
  refine ⟨patch_idem namespaces hns file, apply_idem namespaces hns, ensureImport_idem, ?_⟩
  intro written h
  simp only [PatchMainNamespaceScopeDST] at h ⊢
  have hpatch := patch_idem namespaces hns file
  cases hfound : (PatchMainNamespaceScopeDST.patch namespaces file).2 with
  | false => simp [hfound] at h
  | true =>
    simp only [hfound, if_true, Prod.mk.injEq, Option.some.injEq, true_and] at h
    rw [← h, hpatch, hfound]
    simp

/-- Witness of C14 on the scaffolded `cmd/main.go` and the namespace
`default`. -/
theorem PatchMainNamespaceScopeDST_idempotent_witness :
    (["default"] : List String) ≠ [] ∧
    PatchMainNamespaceScopeDST.patch ["default"]
        (PatchMainNamespaceScopeDST.patch ["default"] scenarioMain).1
      = PatchMainNamespaceScopeDST.patch ["default"] scenarioMain :=
  ⟨by decide, (PatchMainNamespaceScopeDST_idempotent ["default"] scenarioMain (by decide)).1⟩

theorem mem_importPaths_ensureImport_loop (decls : List Decl)
    (h : (ensureImport.loop decls false).2 = true) :
    cacheImportPath ∈ File.importPaths { Decls := (ensureImport.loop decls false).1 } := by
  induction decls with
  | nil => simp [ensureImport.loop] at h
  | cons d rest ih =>
    cases d with
    | Import specs =>
      by_cases hany : specs.any (fun spec => spec.Path == cacheImportPath) = true
      · obtain ⟨spec, hspec, hpath⟩ := List.any_eq_true.mp hany
        have hpath : spec.Path = cacheImportPath := by simpa using hpath
        simp only [ensureImport.loop, ensureImport_loop_true, hany, File.importPaths,
          List.flatMap_cons, List.mem_append, List.mem_map]
        exact Or.inl ⟨spec, by simpa using hspec, hpath⟩
      · simp only [Bool.not_eq_true] at hany
        simp [ensureImport.loop, ensureImport_loop_true, hany, File.importPaths]
    | Other node =>
      simp only [ensureImport.loop] at h
      have := ih h
      simpa [ensureImport.loop, File.importPaths] using this

theorem mem_importPaths_ensureImport (decls : List Decl) :
    cacheImportPath ∈ File.importPaths { Decls := ensureImport decls } := by
  cases h : (ensureImport.loop decls false).2 with
  | true =>
    have := mem_importPaths_ensureImport_loop decls h
    simpa [ensureImport, h] using this
  | false => simp [ensureImport, h, File.importPaths]

/-- C15 on the code: for a file whose first import declaration lacks the cache
package and whose second import declaration holds it, once over the whole
file, `PatchMainNamespaceScopeDST` with the namespace `default` writes a file
in which the path occurs twice: it is appended to the first import
declaration. -/
theorem PatchMainNamespaceScopeDST_import_twice :
    scenarioMainTwoImports.importPaths.count cacheImportPath = 1 ∧
    (PatchMainNamespaceScopeDST (.ok scenarioMainTwoImports) ["default"]).2.map File.importPaths
      = some ["\"os\"", "\"sigs.k8s.io/controller-runtime/pkg/cache\"",
              "\"sigs.k8s.io/controller-runtime\"",
              "\"sigs.k8s.io/controller-runtime/pkg/cache\""] ∧
    (PatchMainNamespaceScopeDST (.ok scenarioMainTwoImports) ["default"]).2.map
        (fun written => written.importPaths.count cacheImportPath)
      = some 2 := by
  refine ⟨by decide, by decide, by decide⟩

/-- C19 on the code: `runOperatorSDK` gives `PatchMainNamespaceScopeDST` the
list that holds `default`, whatever the request.  For a request with an empty
namespace list and the scaffolded `cmd/main.go`, the file that is written has
a `Cache` element for the namespace `default`, where the patch with the list of
the request writes the option literal without any `Cache` element. -/
theorem runOperatorSDK_namespaces_default :
    (∀ (request : OperatorData) (parsed : Except String File),
      runOperatorSDK.patchMain request parsed
        = PatchMainNamespaceScopeDST parsed ["default"]) ∧
    (runOperatorSDK.patchMain
        { Domain := "example.com", Repo := "example.com/widgets", ProjectName := "widgets",
          Namespaces := [], CRDs := [scenarioWidget] }
        (.ok scenarioMain)).2
      = some { Decls :=
          [.Import [{ Name := none, Path := "\"os\"" },
                    { Name := some "ctrl", Path := "\"sigs.k8s.io/controller-runtime\"" },
                    { Name := none, Path := "\"sigs.k8s.io/controller-runtime/pkg/cache\"" }],
           .Other (.Other
             [.CallExpr (.SelectorExpr (.Ident "ctrl") "NewManager")
               [.CallExpr (.SelectorExpr (.Ident "ctrl") "GetConfigOrDie") [],
                .CompositeLit (.SelectorExpr "ctrl" "Options")
                  [.KeyValueExpr (.Ident "Scheme") (.Ident "scheme"),
                   .KeyValueExpr (.Ident "Cache")
                     (.CompositeLit (.SelectorExpr "cache" "Options")
                       [.KeyValueExpr (.Ident "DefaultNamespaces")
                         (.CompositeLit
                           (.MapType (.Ident "string") (.SelectorExpr "cache" "Config"))
                           [.KeyValueExpr (.BasicLit .STRING "\"default\"")
                             (.CompositeLit (.SelectorExpr "cache" "Config") [])])])]]])] } ∧
    (PatchMainNamespaceScopeDST (.ok scenarioMain) []).2
      = some { Decls :=
          [.Import [{ Name := none, Path := "\"os\"" },
                    { Name := some "ctrl", Path := "\"sigs.k8s.io/controller-runtime\"" },
                    { Name := none, Path := "\"sigs.k8s.io/controller-runtime/pkg/cache\"" }],
           .Other (.Other
             [.CallExpr (.SelectorExpr (.Ident "ctrl") "NewManager")
               [.CallExpr (.SelectorExpr (.Ident "ctrl") "GetConfigOrDie") [],
                .CompositeLit (.SelectorExpr "ctrl" "Options")
                  [.KeyValueExpr (.Ident "Scheme") (.Ident "scheme")]]])] } := by
  refine ⟨fun _ _ => rfl, by rfl, by rfl⟩

/-- C20: whatever the namespace list, the tree that
`PatchMainNamespaceScopeDST` builds holds the import path of the cache package
in an import declaration, with or without a call that passes the test of the
first walk; a file that is written holds it, and a file with such a call is
written, also with the empty list, for which the option literal gets no
`Cache` element. -/
theorem PatchMainNamespaceScopeDST_import_always (namespaces : List String) (file : File) :
    cacheImportPath ∈ (PatchMainNamespaceScopeDST.patch namespaces file).1.importPaths ∧
    (∀ written : File,
      (PatchMainNamespaceScopeDST (.ok file) namespaces).2 = some written →
      cacheImportPath ∈ written.importPaths) ∧
    (file.Decls.any Decl.hasManagerCall = true →
      PatchMainNamespaceScopeDST (.ok file) namespaces
        = (none, some (PatchMainNamespaceScopeDST.patch namespaces file).1)) := by
  have hmem : cacheImportPath
      ∈ (PatchMainNamespaceScopeDST.patch namespaces file).1.importPaths :=
    mem_importPaths_ensureImport _
  refine ⟨hmem, ?_, ?_⟩
  · intro written h
    simp only [PatchMainNamespaceScopeDST] at h
    split at h
    · rw [← Option.some.inj h]
      exact hmem
    · exact absurd h (by simp)
  · intro hfound
    have : (PatchMainNamespaceScopeDST.patch namespaces file).2 = true := hfound
    simp [PatchMainNamespaceScopeDST, this]

/-- Witness of C20 on the scaffolded `cmd/main.go`, which does not import the
cache package, and the empty namespace list: the file is written, with the
new import and with the option literal as it was. -/
theorem PatchMainNamespaceScopeDST_import_always_witness :
    scenarioMain.Decls.any Decl.hasManagerCall = true ∧
    cacheImportPath ∉ scenarioMain.importPaths ∧
    PatchMainNamespaceScopeDST (.ok scenarioMain) []
      = (none, some { Decls :=
          [.Import [{ Name := none, Path := "\"os\"" },
                    { Name := some "ctrl", Path := "\"sigs.k8s.io/controller-runtime\"" },
                    { Name := none, Path := "\"sigs.k8s.io/controller-runtime/pkg/cache\"" }],
           .Other (.Other
             [.CallExpr (.SelectorExpr (.Ident "ctrl") "NewManager")
               [.CallExpr (.SelectorExpr (.Ident "ctrl") "GetConfigOrDie") [],
                .CompositeLit (.SelectorExpr "ctrl" "Options")
                  [.KeyValueExpr (.Ident "Scheme") (.Ident "scheme")]]])] }) :=
  ⟨by decide, by decide,
    ((PatchMainNamespaceScopeDST_import_always [] scenarioMain).2.2 (by decide)).trans
      (by rfl)⟩

/-! ## The pattern-based patcher -/

theorem expand_go_of_no_dollar (matched template : List Char) (h : '$' ∉ template) :
    regexp.expand.go matched template 0 = template := by
  induction template with
  | nil => rfl
  | cons r rest ih =>
    have hr : r ≠ '$' := fun hr => h (by rw [hr]; exact List.mem_cons_self _ _)
    have hrest : '$' ∉ rest := fun hm => h (List.mem_cons_of_mem _ hm)
    simp [regexp.expand.go, hr, ih hrest]

theorem matchAt_nil (literal : List Char) : regexp.matchAt literal [] = none := by
  cases literal <;> simp [regexp.matchAt]

theorem matchAt_pos (literal s : List Char) (n : Nat) (h : regexp.matchAt literal s = some n) :
    0 < n := by
  unfold regexp.matchAt at h
  split at h
  · simp only at h
    split at h
    · rename_i hrun
      have := Option.some.inj h
      omega
    · exact absurd h (by simp)
  · exact absurd h (by simp)

theorem ReplaceAllString_go_skip (literal repl s : List Char) (k : Nat) :
    regexp.ReplaceAllString.go literal repl s k
      = regexp.ReplaceAllString.go literal repl (s.drop k) 0 := by
  induction s generalizing k with
  | nil => cases k <;> simp [regexp.ReplaceAllString.go]
  | cons r rest ih =>
    cases k with
    | zero => rfl
    | succ k => simpa [regexp.ReplaceAllString.go] using ih k

theorem ReplaceAllString_go_match (literal repl s : List Char) (n : Nat)
    (h : regexp.matchAt literal s = some n) :
    regexp.ReplaceAllString.go literal repl s 0
      = regexp.expand repl (s.take n) ++ regexp.ReplaceAllString.go literal repl (s.drop n) 0 := by
  cases s with
  | nil => rw [matchAt_nil] at h; exact absurd h (by simp)
  | cons r rest =>
    have hn := matchAt_pos _ _ _ h
    obtain ⟨m, rfl⟩ : ∃ m, n = m + 1 := ⟨n - 1, by omega⟩
    rw [regexp.ReplaceAllString.go, h]
    simp only [Nat.add_sub_cancel, List.drop_succ_cons]
    rw [ReplaceAllString_go_skip]

theorem ReplaceAllString_go_before (literal repl a s : List Char)
    (h : ∀ i, i < a.length → regexp.matchAt literal ((a ++ s).drop i) = none) :
    regexp.ReplaceAllString.go literal repl (a ++ s) 0
      = a ++ regexp.ReplaceAllString.go literal repl s 0 := by
  induction a with
  | nil => rfl
  | cons c rest ih =>
    have h0 := h 0 (by simp)
    simp only [List.drop_zero, List.cons_append] at h0
    rw [List.cons_append, regexp.ReplaceAllString.go, h0]
    simp only
    rw [ih (fun i hi => by
      have := h (i + 1) (by simpa using hi)
      simpa using this)]
    rfl

theorem takeWhile_run (v rest : List Char) (hall : ∀ r ∈ v, regexp.isValueRune r = true)
    (hrest : ∀ r, rest.head? = some r → regexp.isValueRune r = false) :
    (v ++ rest).takeWhile regexp.isValueRune = v := by
  induction v with
  | nil =>
    cases rest with
    | nil => rfl
    | cons r tail => simp [List.takeWhile, hrest r rfl]
  | cons c v ih =>
    simp [List.takeWhile, hall c (List.mem_cons_self _ _),
      ih (fun r hr => hall r (List.mem_cons_of_mem _ hr))]

theorem matchAt_occurrence (literal v rest : List Char) (hv : v ≠ [])
    (hall : ∀ r ∈ v, regexp.isValueRune r = true)
    (hrest : ∀ r, rest.head? = some r → regexp.isValueRune r = false) :
    regexp.matchAt literal (literal ++ (v ++ rest)) = some (literal.length + v.length) := by
  have hpre : literal.isPrefixOf (literal ++ (v ++ rest)) = true := by
    induction literal with
    | nil => simp
    | cons c tail ih => simp
  have hlen : 0 < v.length := List.length_pos.mpr hv
  simp [regexp.matchAt, hpre, takeWhile_run v rest hall hrest, hlen]

theorem matchAnywhere_of_matchAt (literal a s : List Char) (n : Nat)
    (h : regexp.matchAt literal s = some n) : regexp.matchAnywhere literal (a ++ s) = true := by
  induction a with
  | nil =>
    cases s with
    | nil => rw [matchAt_nil] at h; exact absurd h (by simp)
    | cons r rest => simp [regexp.matchAnywhere, h]
  | cons c rest ih => simp [regexp.matchAnywhere, ih]

theorem matchAt_none_of_not_matchAnywhere (literal s : List Char)
    (h : regexp.matchAnywhere literal s = false) (i : Nat) :
    regexp.matchAt literal (s.drop i) = none := by
  induction s generalizing i with
  | nil => simp [matchAt_nil]
  | cons r rest ih =>
    simp only [regexp.matchAnywhere, Bool.or_eq_false_iff] at h
    cases i with
    | zero => simpa using h.1
    | succ i => simpa using ih h.2 i

theorem ReplaceAllString_of_no_match (literal src repl : String)
    (h : regexp.MatchString literal src = false) :
    regexp.ReplaceAllString literal src repl = src := by
  have := ReplaceAllString_go_before literal.data repl.data src.data []
    (fun i _ => by
      rw [List.append_nil]
      exact matchAt_none_of_not_matchAnywhere _ _ h i)
  simp only [List.append_nil, regexp.ReplaceAllString.go] at this
  simp [regexp.ReplaceAllString, this]

theorem replace_eq_ReplaceAllString (literal value content : String) :
    updateWebhookPath.replace literal value content
      = regexp.ReplaceAllString literal content (literal ++ value) := by
  unfold updateWebhookPath.replace
  split
  · rfl
  · rename_i h
    rw [ReplaceAllString_of_no_match _ _ _ (by simpa using h)]

theorem replace_occurrence (literal value a v rest : String)
    (hlit : '$' ∉ literal.data) (hvalue : '$' ∉ value.data)
    (hv : v ≠ "") (hrun : ∀ r ∈ v.data, regexp.isValueRune r = true)
    (hrest : ∀ r, rest.data.head? = some r → regexp.isValueRune r = false)
    (hbefore : ∀ i, i < a.length →
      regexp.matchAt literal.data ((a ++ literal ++ v ++ rest).data.drop i) = none) :
    updateWebhookPath.replace literal value (a ++ literal ++ v ++ rest)
      = a ++ literal ++ value ++ updateWebhookPath.replace literal value rest := by
  have hvd : v.data ≠ [] := fun hd => hv (String.ext hd)
  have hmatch := matchAt_occurrence literal.data v.data rest.data hvd hrun hrest
  have hdata : (a ++ literal ++ v ++ rest).data
      = a.data ++ (literal.data ++ (v.data ++ rest.data)) := by
    simp [String.data_append]
  have hexpand : ∀ m, regexp.expand (literal.data ++ value.data) m
      = literal.data ++ value.data := by
    intro m
    rw [regexp.expand, expand_go_of_no_dollar]
    simp [hlit, hvalue]
  rw [replace_eq_ReplaceAllString, replace_eq_ReplaceAllString]
  apply String.ext
  simp only [regexp.ReplaceAllString, String.data_append]
  rw [hdata] at hbefore
  have hlen : a.length = a.data.length := rfl
  have hsrc : a.data ++ literal.data ++ v.data ++ rest.data
      = a.data ++ (literal.data ++ (v.data ++ rest.data)) := by
    simp [List.append_assoc]
  have hdrop : (literal.data ++ (v.data ++ rest.data)).drop (literal.data.length + v.data.length)
      = rest.data := by
    rw [← List.append_assoc, ← List.length_append, List.drop_left]
  rw [hsrc, ReplaceAllString_go_before _ _ a.data _ (fun i hi => hbefore i (hlen ▸ hi)),
    ReplaceAllString_go_match _ _ _ _ hmatch, hexpand, hdrop]
  simp [List.append_assoc]

set_option maxRecDepth 100000 in
/-- C16, as stated, fails: in a webhook file with two markers, the overrides of
the path and of the failure policy are written at both occurrences of each
attribute, the later ones included. -/
theorem updateWebhookPath_later_occurrences :
    (updateWebhookPath
        (fun p => if p = "/tmp/sdk-1/internal/webhook/v1/widget_webhook.go"
          then some scenarioWebhook else none)
        "/tmp/sdk-1" scenarioWidget
        { Typ := "mutating", AdmissionReviewVersions := [], FailurePolicy := "Ignore",
          SideEffects := "", MatchPolicy := "", Path := "/custom", Operations := [],
          Resources := [], Enabled := true }
        [scenarioWidget]).2 "/tmp/sdk-1/internal/webhook/v1/widget_webhook.go"
      = some "//+kubebuilder:webhook:path=/custom,mutating=true,failurePolicy=Ignore,sideEffects=None\n//+kubebuilder:webhook:path=/custom,mutating=false,failurePolicy=Ignore,sideEffects=None\n" := by
  decide

/-- C16, amended: for an attribute of `updateWebhookPath` and an override, both
without `$`, the value is replaced at every textual occurrence of
`attribute=<value>`, from left to right: in a content that is some text `a` in
which no occurrence starts, then the attribute with a value `v`, a non-empty
run of characters other than the comma and white space that ends where the
content ends or such a character follows, then the text `rest`, the result is
`a`, the attribute with the override, and the text `rest` patched in the same
way.  A content without any occurrence of the attribute is left as it is.  The
attributes are the path after `//+kubebuilder:webhook:`, whose override is
always written, and the failure policy, the side effects, the match policy and
the admission review versions, each written when its override is not empty;
no error is returned. -/
theorem updateWebhookPath_every_occurrence (literal value a v rest : String)
    (hlit : '$' ∉ literal.data) (hvalue : '$' ∉ value.data)
    (hv : v ≠ "") (hrun : ∀ r ∈ v.data, regexp.isValueRune r = true)
    (hrest : ∀ r, rest.data.head? = some r → regexp.isValueRune r = false)
    (hbefore : ∀ i, i < a.length →
      regexp.matchAt literal.data ((a ++ literal ++ v ++ rest).data.drop i) = none) :
    updateWebhookPath.replace literal value (a ++ literal ++ v ++ rest)
      = a ++ literal ++ value ++ updateWebhookPath.replace literal value rest ∧
    (∀ content : String, regexp.MatchString literal content = false →
      updateWebhookPath.replace literal value content = content) ∧
    (∀ (webhook : WebhookConfig) (content : String),
      updateWebhookPath.patch webhook content
        = (fun c => if webhook.AdmissionReviewVersions.length > 0 then
              updateWebhookPath.replace "admissionReviewVersions="
                (strings.Join webhook.AdmissionReviewVersions ";") c else c)
          ((fun c => if webhook.MatchPolicy ≠ "" then
              updateWebhookPath.replace "matchPolicy=" webhook.MatchPolicy c else c)
            ((fun c => if webhook.SideEffects ≠ "" then
                updateWebhookPath.replace "sideEffects=" webhook.SideEffects c else c)
              ((fun c => if webhook.FailurePolicy ≠ "" then
                  updateWebhookPath.replace "failurePolicy=" webhook.FailurePolicy c else c)
                (updateWebhookPath.replace "//+kubebuilder:webhook:path=" webhook.Path
                  content))))) ∧
    (∀ (files : TextFiles) (projectDir : String) (crd : CRD) (webhook : WebhookConfig)
        (crds : List CRD),
      (updateWebhookPath files projectDir crd webhook crds).1 = none ∧
      (files (webhookFile projectDir crd) = none →
        (updateWebhookPath files projectDir crd webhook crds).2 = files) ∧
      (∀ content, files (webhookFile projectDir crd) = some content →
        (updateWebhookPath files projectDir crd webhook crds).2
          = files.write (webhookFile projectDir crd)
              (updateWebhookPath.patch webhook content))) := by
  refine ⟨replace_occurrence literal value a v rest hlit hvalue hv hrun hrest hbefore, ?_,
    fun _ _ => rfl, ?_⟩
  · intro content h
    simp [updateWebhookPath.replace, h]
  · intro files projectDir crd webhook crds
    refine ⟨?_, ?_, ?_⟩
    · cases h : files (webhookFile projectDir crd) <;> simp [updateWebhookPath, h]
    · intro h
      simp [updateWebhookPath, h]
    · intro content h
      simp [updateWebhookPath, h]

set_option maxRecDepth 100000 in
/-- Witness of C16 amended on the failure policy of the scaffolded webhook file:
the value `fail` of the first marker and that of the second marker both become
`Ignore`. -/
theorem updateWebhookPath_every_occurrence_witness :
    updateWebhookPath.replace "failurePolicy=" "Ignore" scenarioWebhook
      = "//+kubebuilder:webhook:path=/mutate-apps-v1-widget,mutating=true,failurePolicy=Ignore,sideEffects=None\n//+kubebuilder:webhook:path=/validate-apps-v1-widget,mutating=false,failurePolicy=Ignore,sideEffects=None\n" := by
  have h := (updateWebhookPath_every_occurrence "failurePolicy=" "Ignore"
    "//+kubebuilder:webhook:path=/mutate-apps-v1-widget,mutating=true," "fail"
    ",sideEffects=None\n//+kubebuilder:webhook:path=/validate-apps-v1-widget,mutating=false,failurePolicy=fail,sideEffects=None\n"
    (by decide) (by decide) (by decide) (by decide) (by decide) (by decide)).1
  have hcontent : scenarioWebhook
      = "//+kubebuilder:webhook:path=/mutate-apps-v1-widget,mutating=true," ++ "failurePolicy="
        ++ "fail"
        ++ ",sideEffects=None\n//+kubebuilder:webhook:path=/validate-apps-v1-widget,mutating=false,failurePolicy=fail,sideEffects=None\n" := by
    decide
  rw [hcontent, h]
  decide

set_option maxRecDepth 100000 in
/-- C17, as stated, fails: for a webhook definition with an empty path override
and the failure policy `Ignore`, whose scaffolding step succeeds and leaves the
webhook file, `CreateWebhooks` leaves the file as the scaffolder wrote it, with
the failure policy `fail`. -/
theorem CreateWebhooks_empty_path_no_patch :
    (CreateWebhooks scenarioScaffold (fun _ => none) "/tmp/sdk-1"
        [{ scenarioWidget with
            Webhooks := [{ Typ := "mutating", AdmissionReviewVersions := [],
                           FailurePolicy := "Ignore", SideEffects := "", MatchPolicy := "",
                           Path := "", Operations := [], Resources := [],
                           Enabled := true }] }]).2
        "/tmp/sdk-1/internal/webhook/v1/widget_webhook.go"
      = some scenarioWebhook := by
  decide

theorem CreateWebhooks_webhooks_foldl
    (scaffold : String → List String → TextFiles → Bool × TextFiles) (projectDir : String)
    (crds : List CRD) (crd : CRD) (webhooks : List WebhookConfig) (files : TextFiles) :
    CreateWebhooks.webhooks scaffold projectDir crds crd webhooks files
      = webhooks.foldl
          (fun files webhook =>
            if (scaffold projectDir (CreateWebhooks.args crd webhook) files).1 = true
                ∧ webhook.Path ≠ "" then
              match (scaffold projectDir (CreateWebhooks.args crd webhook) files).2
                  (webhookFile projectDir crd) with
              | some content =>
                (scaffold projectDir (CreateWebhooks.args crd webhook) files).2.write
                  (webhookFile projectDir crd) (updateWebhookPath.patch webhook content)
              | none => (scaffold projectDir (CreateWebhooks.args crd webhook) files).2
            else (scaffold projectDir (CreateWebhooks.args crd webhook) files).2)
          files := by
  induction webhooks generalizing files with
  | nil => rfl
  | cons webhook rest ih =>
    rw [CreateWebhooks.webhooks, List.foldl_cons]
    simp only
    cases hok : (scaffold projectDir (CreateWebhooks.args crd webhook) files).1
    · simp only [Bool.not_false, if_true, Bool.false_eq_true, false_and, if_false]
      exact ih _
    · by_cases hpath : webhook.Path = ""
      · simp only [Bool.not_true, Bool.false_eq_true, if_false, hpath, ne_eq, not_true_eq_false,
          and_false]
        exact ih _
      · simp only [Bool.not_true, Bool.false_eq_true, if_false, ne_eq, hpath, not_false_eq_true,
          and_self, if_true]
        rw [ih]
        congr 1
        cases hfile : (scaffold projectDir (CreateWebhooks.args crd webhook) files).2
          (webhookFile projectDir crd) <;> simp [updateWebhookPath, hfile]

theorem CreateWebhooks_loop_foldl
    (scaffold : String → List String → TextFiles → Bool × TextFiles) (projectDir : String)
    (crds rest : List CRD) (files : TextFiles) :
    CreateWebhooks.loop scaffold projectDir crds rest files
      = rest.foldl
          (fun files crd => CreateWebhooks.webhooks scaffold projectDir crds crd crd.Webhooks files)
          files := by
  induction rest generalizing files with
  | nil => rfl
  | cons crd rest ih =>
    rw [CreateWebhooks.loop, List.foldl_cons]
    split
    · rename_i hlen
      rw [ih, List.length_eq_zero.mp hlen]
      rfl
    · exact ih _

/-- C17, amended: for every request, `CreateWebhooks` returns no error and goes
through the resources in order and, for each, through its webhook definitions
in order; for every one of them it runs the scaffolding step, and it applies the
pattern-based patcher to the webhook file, when the file exists, only when the
step succeeded and the definition gives a non-empty path override, and leaves
the files as the scaffolder left them otherwise.  So when every definition of
the request has an empty path override, the files are those that the
scaffolding steps leave, whatever the other overrides. -/
theorem CreateWebhooks_patch_gated_by_path
    (scaffold : String → List String → TextFiles → Bool × TextFiles) (files : TextFiles)
    (projectDir : String) (crds : List CRD) :
    (CreateWebhooks scaffold files projectDir crds).1 = none ∧
    (CreateWebhooks scaffold files projectDir crds).2
      = crds.foldl
          (fun files crd =>
            crd.Webhooks.foldl
              (fun files webhook =>
                if (scaffold projectDir (CreateWebhooks.args crd webhook) files).1 = true
                    ∧ webhook.Path ≠ "" then
                  match (scaffold projectDir (CreateWebhooks.args crd webhook) files).2
                      (webhookFile projectDir crd) with
                  | some content =>
                    (scaffold projectDir (CreateWebhooks.args crd webhook) files).2.write
                      (webhookFile projectDir crd) (updateWebhookPath.patch webhook content)
                  | none => (scaffold projectDir (CreateWebhooks.args crd webhook) files).2
                else (scaffold projectDir (CreateWebhooks.args crd webhook) files).2)
              files)
          files ∧
    ((∀ crd ∈ crds, ∀ webhook ∈ crd.Webhooks, webhook.Path = "") →
      (CreateWebhooks scaffold files projectDir crds).2
        = crds.foldl
            (fun files crd =>
              crd.Webhooks.foldl
                (fun files webhook =>
                  (scaffold projectDir (CreateWebhooks.args crd webhook) files).2)
                files)
            files) := by
  have hfold := CreateWebhooks_loop_foldl scaffold projectDir crds crds files
  simp only [CreateWebhooks_webhooks_foldl] at hfold
  refine ⟨rfl, hfold, ?_⟩
  intro hempty
  show CreateWebhooks.loop scaffold projectDir crds crds files = _
  rw [hfold]
  have hinner : ∀ (crd : CRD) (webhooks : List WebhookConfig) (files : TextFiles),
      (∀ webhook ∈ webhooks, webhook.Path = "") →
      webhooks.foldl
          (fun files webhook =>
            if (scaffold projectDir (CreateWebhooks.args crd webhook) files).1 = true
                ∧ webhook.Path ≠ "" then
              match (scaffold projectDir (CreateWebhooks.args crd webhook) files).2
                  (webhookFile projectDir crd) with
              | some content =>
                (scaffold projectDir (CreateWebhooks.args crd webhook) files).2.write
                  (webhookFile projectDir crd) (updateWebhookPath.patch webhook content)
              | none => (scaffold projectDir (CreateWebhooks.args crd webhook) files).2
            else (scaffold projectDir (CreateWebhooks.args crd webhook) files).2)
          files
        = webhooks.foldl
          (fun files webhook => (scaffold projectDir (CreateWebhooks.args crd webhook) files).2)
          files := by
    intro crd webhooks
    induction webhooks with
    | nil => intro _ _; rfl
    | cons webhook rest ih =>
      intro files hall
      simp only [List.foldl_cons]
      rw [if_neg (by simp [hall webhook (List.mem_cons_self _ _)])]
      exact ih _ (fun w hw => hall w (List.mem_cons_of_mem _ hw))
  have houter : ∀ (l : List CRD) (files : TextFiles),
      (∀ crd ∈ l, ∀ webhook ∈ crd.Webhooks, webhook.Path = "") →
      l.foldl
          (fun files crd =>
            crd.Webhooks.foldl
              (fun files webhook =>
                if (scaffold projectDir (CreateWebhooks.args crd webhook) files).1 = true
                    ∧ webhook.Path ≠ "" then
                  match (scaffold projectDir (CreateWebhooks.args crd webhook) files).2
                      (webhookFile projectDir crd) with
                  | some content =>
                    (scaffold projectDir (CreateWebhooks.args crd webhook) files).2.write
                      (webhookFile projectDir crd) (updateWebhookPath.patch webhook content)
                  | none => (scaffold projectDir (CreateWebhooks.args crd webhook) files).2
                else (scaffold projectDir (CreateWebhooks.args crd webhook) files).2)
              files)
          files
        = l.foldl
          (fun files crd =>
            crd.Webhooks.foldl
              (fun files webhook =>
                (scaffold projectDir (CreateWebhooks.args crd webhook) files).2)
              files)
          files := by
    intro l
    induction l with
    | nil => intro _ _; rfl
    | cons crd rest ih =>
      intro files hall
      simp only [List.foldl_cons]
      rw [hinner crd crd.Webhooks files (hall crd (List.mem_cons_self _ _))]
      exact ih _ (fun c hc => hall c (List.mem_cons_of_mem _ hc))
  exact houter crds files hempty

set_option maxRecDepth 100000 in
/-- Witness of C17 amended on a request of two resources: `Gadget` with one
webhook definition that overrides the failure policy and has an empty path
override, then `Widget` with a first definition of the same kind and a second
one that overrides the path and the failure policy.  The webhook file of
`Widget`, which every scaffolding step writes anew, is rewritten with the
overrides of the last definition. -/
theorem CreateWebhooks_patch_gated_by_path_witness :
    (CreateWebhooks scenarioScaffold (fun _ => none) "/tmp/sdk-1"
        [{ scenarioWidget with
            Kind := "Gadget"
            Webhooks := [{ Typ := "mutating", AdmissionReviewVersions := [],
                           FailurePolicy := "Ignore", SideEffects := "", MatchPolicy := "",
                           Path := "", Operations := [], Resources := [],
                           Enabled := true }] },
         { scenarioWidget with
            Webhooks := [{ Typ := "mutating", AdmissionReviewVersions := [],
                           FailurePolicy := "Ignore", SideEffects := "", MatchPolicy := "",
                           Path := "", Operations := [], Resources := [],
                           Enabled := true },
                         { Typ := "validating", AdmissionReviewVersions := [],
                           FailurePolicy := "Ignore", SideEffects := "", MatchPolicy := "",
                           Path := "/custom", Operations := [], Resources := [],
                           Enabled := true }] }]).2
        "/tmp/sdk-1/internal/webhook/v1/widget_webhook.go"
      = some "//+kubebuilder:webhook:path=/custom,mutating=true,failurePolicy=Ignore,sideEffects=None\n//+kubebuilder:webhook:path=/custom,mutating=false,failurePolicy=Ignore,sideEffects=None\n" := by
  have h := (CreateWebhooks_patch_gated_by_path scenarioScaffold (fun _ => none) "/tmp/sdk-1"
    [{ scenarioWidget with
        Kind := "Gadget"
        Webhooks := [{ Typ := "mutating", AdmissionReviewVersions := [],
                       FailurePolicy := "Ignore", SideEffects := "", MatchPolicy := "",
                       Path := "", Operations := [], Resources := [],
                       Enabled := true }] },
     { scenarioWidget with
        Webhooks := [{ Typ := "mutating", AdmissionReviewVersions := [],
                       FailurePolicy := "Ignore", SideEffects := "", MatchPolicy := "",
                       Path := "", Operations := [], Resources := [],
                       Enabled := true },
                     { Typ := "validating", AdmissionReviewVersions := [],
                       FailurePolicy := "Ignore", SideEffects := "", MatchPolicy := "",
                       Path := "/custom", Operations := [], Resources := [],
                       Enabled := true }] }]).2.1
  rw [h]
  decide

end OSDK
